import Mathlib

/-!
The streaming ENML transforms of enml.js.

A shallow embedding of `src/enml.js`: the three SAX-driven traversals
`HTMLOfENML` (render), `TodosOfENML` (extract) and `CheckTodoInENML`
(toggle).  The SAX parser and the XML writer are libraries the file only
calls; a parse is modelled as the list of events delivered to the handlers
and the writer as the list of calls made on it.
-/

namespace ENML

/-! ## Events and writer calls -/

/-- One attribute as the parser delivers it: the pair `[key, value]`. -/
abbrev Attr := String × String

/-- The events a parse delivers to the three registered handlers
`onStartElementNS(elem, attrs)`, `onEndElementNS(elem)`, `onCharacters(chars)`. -/
inductive Event where
  | startElementNS (elem : String) (attrs : List Attr)
  | endElementNS (elem : String)
  | characters (chars : String)
  deriving DecidableEq, Repr

/-- A resource-table entry: a plain URL string, or an object with optional
`url` and `title` properties. -/
inductive Resource where
  | plain (url : String)
  | record (url : Option String) (title : Option String)
  deriving DecidableEq, Repr

/-- The values the code passes as an attribute value: a string, or (through
`resource.url || resource`) a resource object itself. -/
inductive JsVal where
  | str (s : String)
  | obj (r : Resource)
  deriving DecidableEq, Repr

/-- The calls the code makes on its `XMLWriter`, in order. -/
inductive SinkCall where
  | startElement (name : String)
  | writeAttribute (key : String) (value : JsVal)
  | text (chars : String)
  | endElement
  | writeElement (name : String) (content : String)
  deriving DecidableEq, Repr

/-- The loop `attrs.forEach(attr => writer.writeAttribute(attr[0], attr[1]))`. -/
def writeAttrs (attrs : List Attr) : List SinkCall :=
  attrs.map (fun attr => SinkCall.writeAttribute attr.1 (JsVal.str attr.2))

/-! ## CheckTodoInENML (toggle) -/

/-- The variables the handlers of `CheckTodoInENML` close over. -/
structure CheckState where
  todo_cout : Nat
  writer : List SinkCall
  deriving DecidableEq, Repr

namespace CheckTodo

/-- The loop of the matching branch: `if(attr[0] == 'checked') return;`
and otherwise `writer.writeAttribute(attr[0], attr[1])`. -/
def writeUnchecked (attrs : List Attr) : List SinkCall :=
  writeAttrs (attrs.filter (fun attr => !(attr.1 == "checked")))

/-- The start handler.  `elem == 'en-todo' && index == todo_cout++` reads the
counter and increments it only when the left operand holds. -/
def onStartElementNS (index : Int) (check : Bool) (st : CheckState)
    (elem : String) (attrs : List Attr) : CheckState :=
  let w := st.writer ++ [SinkCall.startElement elem]
  if elem = "en-todo" then
    let c := st.todo_cout
    if index = (c : Int) then
      { todo_cout := c + 1,
        writer := w ++ writeUnchecked attrs ++
          (if check then [SinkCall.writeAttribute "checked" (JsVal.str "true")] else []) }
    else
      { todo_cout := c + 1, writer := w ++ writeAttrs attrs }
  else
    { todo_cout := st.todo_cout, writer := w ++ writeAttrs attrs }

/-- The end handler: `writer.endElement()`. -/
def onEndElementNS (st : CheckState) (_elem : String) : CheckState :=
  { st with writer := st.writer ++ [SinkCall.endElement] }

/-- The text handler: `writer.text(chars)`. -/
def onCharacters (st : CheckState) (chars : String) : CheckState :=
  { st with writer := st.writer ++ [SinkCall.text chars] }

/-- Dispatch of one event to its handler. -/
def step (index : Int) (check : Bool) (st : CheckState) : Event → CheckState
  | Event.startElementNS elem attrs => onStartElementNS index check st elem attrs
  | Event.endElementNS elem => onEndElementNS st elem
  | Event.characters chars => onCharacters st chars

/-- The handlers run over a whole parse from the state `st`. -/
def run (index : Int) (check : Bool) (st : CheckState) (events : List Event) : CheckState :=
  events.foldl (step index check) st

end CheckTodo

/-- `CheckTodoInENML(text, index, check)`: the writer calls made while the
events of `text` are parsed, starting with `todo_cout = 0` and a new writer. -/
def CheckTodoInENML (events : List Event) (index : Int) (check : Bool) : List SinkCall :=
  (CheckTodo.run index check { todo_cout := 0, writer := [] } events).writer

/-! ## Observations on event streams -/

/-- Whether the event is the start of an `en-todo` element. -/
def isTodoStart : Event → Bool
  | Event.startElementNS elem _ => elem == "en-todo"
  | _ => false

/-- The number of `en-todo` start events of a stream. -/
def countTodos (events : List Event) : Nat :=
  events.countP isTodoStart

/-- The calls that copy one event to the writer unchanged. -/
def passEvent : Event → List SinkCall
  | Event.startElementNS elem attrs => SinkCall.startElement elem :: writeAttrs attrs
  | Event.endElementNS _ => [SinkCall.endElement]
  | Event.characters chars => [SinkCall.text chars]

/-- The identity pass-through of a stream. -/
def passThrough : List Event → List SinkCall
  | [] => []
  | e :: es => passEvent e ++ passThrough es

/-- The stack of open element names after `events`, read from the stack
`stack`; `none` when an end event does not close the innermost open element. -/
def openElems : List String → List Event → Option (List String)
  | stack, [] => some stack
  | stack, Event.startElementNS elem _ :: es => openElems (elem :: stack) es
  | [], Event.endElementNS _ :: _ => none
  | top :: stack, Event.endElementNS elem :: es =>
      if elem = top then openElems stack es else none
  | stack, Event.characters _ :: es => openElems stack es

/-- A well-nested stream: every end event closes the innermost open element
and nothing is left open. -/
def wellNested (events : List Event) : Bool :=
  openElems [] events == some []

/-! ## Reading a written document back -/

/-- A start tag whose attributes are still being written, put in front of
the events that follow it. -/
def emitPending : Option (String × List Attr) → List Event → List Event
  | none, es => es
  | some (name, attrs), es => Event.startElementNS name attrs :: es

/-- Modelled from the spec: the XML writer (`lib/xml-writer`) and the parser
(`lib/xml-parser`) are not part of the source file; section 2 of the spec gives
the writer an open-element stack and the calls `open`, `attribute`, `text`,
`close`, and the parser the three event kinds.  `readEvents` is the event
stream of the document a sequence of writer calls builds: an opened element
takes the attribute calls that directly follow it, `close` ends the innermost
open element, and each `text` call is one text event.  `stack` holds the open
element names, `pending` the start tag still accepting attributes.  `none`:
the calls build no document (a close with nothing open, an attribute outside
a start tag or with a non-string value). -/
def readEvents : List String → Option (String × List Attr) → List SinkCall →
    Option (List Event)
  | _, pending, [] => some (emitPending pending [])
  | stack, pending, SinkCall.startElement name :: cs =>
      (readEvents (name :: stack) (some (name, [])) cs).map (emitPending pending)
  | stack, some (name, attrs), SinkCall.writeAttribute key (JsVal.str value) :: cs =>
      readEvents stack (some (name, attrs ++ [(key, value)])) cs
  | _, _, SinkCall.writeAttribute _ _ :: _ => none
  | stack, pending, SinkCall.text chars :: cs =>
      (readEvents stack none cs).map
        (fun es => emitPending pending (Event.characters chars :: es))
  | [], _, SinkCall.endElement :: _ => none
  | top :: stack, pending, SinkCall.endElement :: cs =>
      (readEvents stack none cs).map
        (fun es => emitPending pending (Event.endElementNS top :: es))
  | stack, pending, SinkCall.writeElement name content :: cs =>
      (readEvents stack none cs).map
        (fun es => emitPending pending
          (Event.startElementNS name [] :: Event.characters content ::
            Event.endElementNS name :: es))

/-- The event stream of the document built by `calls` on a new writer. -/
def readBack (calls : List SinkCall) : Option (List Event) :=
  readEvents [] none calls

/-! ## TodosOfENML (extract) -/

/-- One element of the returned array: `{text: text, checked: checked}`.
`text` is `none` for the JavaScript `null` the variable starts with. -/
structure TodoRecord where
  text : Option String
  checked : Bool
  deriving DecidableEq, Repr

/-- The variables the handlers of `TodosOfENML` close over. -/
structure TodosState where
  todos : List TodoRecord
  onTodo : Bool
  text : Option String
  checked : Bool
  deriving DecidableEq, Repr

namespace Todos

/-- The first alternative of `alts` that matches at the start of `s`. -/
def matchHere (alts : List (List Char)) (s : List Char) : Option (List Char) :=
  alts.find? (fun a => a.isPrefixOf s)

/-- An unanchored alternation `/a1|a2|.../` applied to `s`: the leftmost
position where an alternative matches, the alternatives tried in order;
the result is the matched text `m[0]`, `none` for a `null` match. -/
def firstMatch (alts : List (List Char)) : List Char → Option (List Char)
  | [] => matchHere alts []
  | c :: cs =>
      match matchHere alts (c :: cs) with
      | some m => some m
      | none => firstMatch alts cs

/-- The alternatives of the pattern `/b|u|i|font|strong/`. -/
def inlineAlts : List (List Char) :=
  ["b".data, "u".data, "i".data, "font".data, "strong".data]

/-- The test `var m = elem.match(/b|u|i|font|strong/); m && elem == m[0]`. -/
def isInline (elem : String) : Bool :=
  match firstMatch inlineAlts elem.data with
  | some m => elem.data == m
  | none => false

/-- The value of `checked` after the loop
`if(attr[0] == 'checked' && attr[1] == 'true') checked = true`. -/
def hasCheckedTrue (attrs : List Attr) : Bool :=
  attrs.any (fun attr => attr.1 == "checked" && attr.2 == "true")

/-- The start handler. -/
def onStartElementNS (st : TodosState) (elem : String) (attrs : List Attr) : TodosState :=
  if isInline elem then
    st
  else if elem = "en-todo" then
    { st with checked := hasCheckedTrue attrs, text := some "", onTodo := true }
  else
    { st with
      todos := if st.onTodo then st.todos ++ [{ text := st.text, checked := st.checked }]
               else st.todos,
      onTodo := false }

/-- The end handler: its body is empty. -/
def onEndElementNS (st : TodosState) (_elem : String) : TodosState :=
  st

/-- The text handler: `text += chars` when `onTodo`; `null + chars` is the
string `"null"` followed by `chars`. -/
def onCharacters (st : TodosState) (chars : String) : TodosState :=
  if st.onTodo then { st with text := some (st.text.getD "null" ++ chars) } else st

/-- Dispatch of one event to its handler. -/
def step (st : TodosState) : Event → TodosState
  | Event.startElementNS elem attrs => onStartElementNS st elem attrs
  | Event.endElementNS elem => onEndElementNS st elem
  | Event.characters chars => onCharacters st chars

/-- The handlers run over a whole parse from the state `st`. -/
def run (st : TodosState) (events : List Event) : TodosState :=
  events.foldl step st

/-- The state the handlers start in: `todos = []`, `onTodo = false`,
`text = null`, `checked = false`. -/
def init : TodosState :=
  { todos := [], onTodo := false, text := none, checked := false }

/-- Two extractor states that have read the same events but for the `checked`
attribute of one `en-todo` start event, which gave `b1` in the first run and
`b2` in the second, with `base` the list `todos` at that event: the states
agree (first case), or the record of that `en-todo` is still buffered (second
case), or it has been pushed right after `base` with the same text and the
flags `b1` and `b2` (third case). -/
def Rel (b1 b2 : Bool) (base : List TodoRecord) (s1 s2 : TodosState) : Prop :=
  s1.onTodo = s2.onTodo ∧ s1.text = s2.text ∧
  ((s1.todos = s2.todos ∧ s1.checked = s2.checked) ∨
   (s1.todos = base ∧ s2.todos = base ∧ s1.onTodo = true ∧
     s1.checked = b1 ∧ s2.checked = b2) ∨
   (∃ t r, s1.todos = base ++ { text := t, checked := b1 } :: r ∧
     s2.todos = base ++ { text := t, checked := b2 } :: r ∧
     (s1.onTodo = true → s1.checked = s2.checked)))

end Todos

/-- `TodosOfENML(text)`: the array `todos` after the events of `text`. -/
def TodosOfENML (events : List Event) : List TodoRecord :=
  (Todos.run Todos.init events).todos

/-! ## The writer's stack -/

/-- Modelled from the spec: the writer's open-element stack (section 2 and
section 3 of the spec; `lib/xml-writer` is not part of the source file).
`startElement` pushes its name, `endElement` pops the innermost open element,
`writeElement` opens and closes an element of its own, the other calls leave
the stack alone.  `none`: an `endElement` came with no element open. -/
def sinkStack : List String → List SinkCall → Option (List String)
  | stack, [] => some stack
  | stack, SinkCall.startElement name :: cs => sinkStack (name :: stack) cs
  | [], SinkCall.endElement :: _ => none
  | _ :: stack, SinkCall.endElement :: cs => sinkStack stack cs
  | stack, SinkCall.writeAttribute _ _ :: cs => sinkStack stack cs
  | stack, SinkCall.text _ :: cs => sinkStack stack cs
  | stack, SinkCall.writeElement _ _ :: cs => sinkStack stack cs

/-! ## HTMLOfENML (render) -/

/-- The variables the handlers of `HTMLOfENML` close over.  `linkTitle` is
`none` while the variable is still `undefined`. -/
structure RenderState where
  mediaTagStarted : Bool
  linkTagStarted : Bool
  linkTitle : Option String
  writer : List SinkCall
  deriving DecidableEq, Repr

namespace Render

/-- The style written on `body` when the note brings none. -/
def defaultStyle : String :=
  "word-wrap: break-word; -webkit-nbsp-mode: space; -webkit-line-break: after-white-space;"

/-- The value a variable holds after the loop `if(attr[0] == key) v = attr[1]`
over all attributes: the value of the last attribute named `key`, `none`
when the variable keeps its initial `null` (or `0`). -/
def attrValue (key : String) (attrs : List Attr) : Option String :=
  attrs.foldl (fun v attr => if attr.1 = key then some attr.2 else v) none

/-- The test `attrs[0] && attrs[0][0] && attrs[0][0] === 'style'`: the first
attribute is named `style`. -/
def firstIsStyle : List Attr → Bool
  | [] => false
  | attr :: _ => attr.1 == "style"

/-- The lookup `resources[hash]` followed by `if(resource)`: the entry under
the key (`"null"` for a missing `hash`), unless there is none or it is the
empty string.  The table is given by its own entries, `resources`; what a
plain object inherits (a hash such as `toString`) is not part of the model. -/
def resolve (resources : String → Option Resource) (hash : Option String) : Option Resource :=
  match resources (hash.getD "null") with
  | some (Resource.plain "") => none
  | r => r

/-- The value of `resource.url || resource`. -/
def resourceUrl : Resource → JsVal
  | Resource.plain url => JsVal.str url
  | Resource.record (some url) title =>
      if url = "" then JsVal.obj (Resource.record (some url) title) else JsVal.str url
  | Resource.record none title => JsVal.obj (Resource.record none title)

/-- The value of `resource.title || resource.url || ''`; a plain string has
neither property. -/
def resourceTitle : Resource → String
  | Resource.plain _ => ""
  | Resource.record url (some title) => if title = "" then url.getD "" else title
  | Resource.record url none => url.getD ""

/-- Whether `sub` occurs in `s`, from some position on. -/
def occursIn (sub : List Char) : List Char → Bool
  | [] => sub.isPrefixOf []
  | c :: cs => sub.isPrefixOf (c :: cs) || occursIn sub cs

/-- The test `type.match(word)` for a string `type` and a plain word. -/
def typeMatches (type word : String) : Bool :=
  occursIn word.data type.data

/-- The calls `if(v) writer.writeAttribute(key, v)` for `width` and `height`:
written when the attribute was present and not empty. -/
def writeIfTruthy (key : String) : Option String → List SinkCall
  | some v => if v = "" then [] else [SinkCall.writeAttribute key (JsVal.str v)]
  | none => []

/-- The calls that write the link to the resource in front of an audio or
video container, the container named `tag` and its `source` child. -/
def containerCalls (tag : String) (url : JsVal) (title : String) : List SinkCall :=
  [SinkCall.startElement "a",
   SinkCall.writeAttribute "href" url,
   SinkCall.writeAttribute "class" (JsVal.str "en-res-link"),
   SinkCall.text title,
   SinkCall.endElement,
   SinkCall.writeElement "br" "",
   SinkCall.startElement tag,
   SinkCall.writeAttribute "controls" (JsVal.str ""),
   SinkCall.text ("Your browser does not support the " ++ tag ++ " tag."),
   SinkCall.startElement "source"]

/-- The `en-media` branch of the start handler up to the common attribute
loop: `none` when `type.match` is called on `null`; the state unchanged and
`false` when the resource does not resolve (the handler returns there);
otherwise the new state and `true`. -/
def startMedia (resources : String → Option Resource) (st : RenderState)
    (attrs : List Attr) : Option (RenderState × Bool) :=
  let type := attrValue "type" attrs
  let hash := attrValue "hash" attrs
  let width := attrValue "width" attrs
  let height := attrValue "height" attrs
  match resolve resources hash with
  | none => some (st, false)
  | some resource =>
      let resourceUrl := resourceUrl resource
      let resourceTitle := resourceTitle resource
      match type with
      | none => none
      | some type =>
          let st1 : RenderState :=
            if typeMatches type "image" then
              { st with writer := st.writer ++
                  [SinkCall.startElement "img",
                   SinkCall.writeAttribute "title" (JsVal.str resourceTitle)] }
            else if typeMatches type "audio" then
              { st with writer := st.writer ++ containerCalls "audio" resourceUrl resourceTitle,
                        mediaTagStarted := true }
            else if typeMatches type "video" then
              { st with writer := st.writer ++ containerCalls "video" resourceUrl resourceTitle,
                        mediaTagStarted := true }
            else
              { st with writer := st.writer ++ [SinkCall.startElement "a"],
                        linkTagStarted := true,
                        linkTitle := some resourceTitle }
          let w2 :=
            if st1.linkTagStarted then
              st1.writer ++ [SinkCall.writeAttribute "href" resourceUrl,
                SinkCall.writeAttribute "class" (JsVal.str "en-res-link")]
            else
              st1.writer ++ [SinkCall.writeAttribute "src" resourceUrl]
          some ({ st1 with writer := w2 ++ writeIfTruthy "width" width ++
                    writeIfTruthy "height" height }, true)

/-- The start handler.  Every branch but the unresolved `en-media` one ends in
the loop that writes all attributes of the element. -/
def onStartElementNS (resources : String → Option Resource) (st : RenderState)
    (elem : String) (attrs : List Attr) : Option RenderState :=
  if elem = "en-note" then
    let w := st.writer ++
      [SinkCall.startElement "html",
       SinkCall.startElement "head",
       SinkCall.startElement "meta",
       SinkCall.writeAttribute "http-equiv" (JsVal.str "Content-Type"),
       SinkCall.writeAttribute "content" (JsVal.str "text/html; charset=UTF-8"),
       SinkCall.endElement,
       SinkCall.endElement,
       SinkCall.startElement "body"] ++
      (if firstIsStyle attrs then []
       else [SinkCall.writeAttribute "style" (JsVal.str defaultStyle)])
    some { st with writer := w ++ writeAttrs attrs }
  else if elem = "en-todo" then
    some { st with writer := st.writer ++
      [SinkCall.startElement "input",
       SinkCall.writeAttribute "type" (JsVal.str "checkbox")] ++ writeAttrs attrs }
  else if elem = "en-media" then
    match startMedia resources st attrs with
    | none => none
    | some (st1, false) => some st1
    | some (st1, true) => some { st1 with writer := st1.writer ++ writeAttrs attrs }
  else
    some { st with writer := st.writer ++ [SinkCall.startElement elem] ++ writeAttrs attrs }

/-- The end handler.  `writer.text(linkTitle)` is reached only with
`linkTagStarted` set, which is set together with `linkTitle`. -/
def onEndElementNS (st : RenderState) (elem : String) : RenderState :=
  if elem = "en-note" then
    { st with writer := st.writer ++ [SinkCall.endElement, SinkCall.endElement] }
  else if elem = "en-todo" then
    st
  else if elem = "en-media" then
    let st1 : RenderState :=
      if st.mediaTagStarted then
        { st with writer := st.writer ++
            [SinkCall.endElement, SinkCall.endElement, SinkCall.writeElement "br" ""],
                  mediaTagStarted := false }
      else if st.linkTagStarted then
        { st with writer := st.writer ++
            [SinkCall.text (st.linkTitle.getD ""), SinkCall.endElement],
                  linkTagStarted := false }
      else
        { st with writer := st.writer ++ [SinkCall.endElement] }
    { st1 with writer := st1.writer ++ [SinkCall.text "\n"] }
  else
    { st with writer := st.writer ++ [SinkCall.endElement] }

/-- The text handler: `writer.text(chars)`. -/
def onCharacters (st : RenderState) (chars : String) : RenderState :=
  { st with writer := st.writer ++ [SinkCall.text chars] }

/-- Dispatch of one event to its handler; `none` when the handler throws. -/
def step (resources : String → Option Resource) (st : RenderState) : Event → Option RenderState
  | Event.startElementNS elem attrs => onStartElementNS resources st elem attrs
  | Event.endElementNS elem => some (onEndElementNS st elem)
  | Event.characters chars => some (onCharacters st chars)

/-- The handlers run over a whole parse from the state `st`; `none` when one
of them throws. -/
def run (resources : String → Option Resource) (st : RenderState) :
    List Event → Option RenderState
  | [] => some st
  | e :: es =>
      match step resources st e with
      | none => none
      | some st1 => run resources st1 es

/-- The state the handlers start in. -/
def init : RenderState :=
  { mediaTagStarted := false, linkTagStarted := false, linkTitle := none, writer := [] }

/-- The condition on the `en-media` elements of a stream read with the open
elements `stack`: each one resolves in the resource table and none is opened
inside another `en-media`. -/
def mediaFlat (resources : String → Option Resource) : List String → List Event → Bool
  | _, [] => true
  | stack, Event.startElementNS elem attrs :: es =>
      (if elem = "en-media" then
        decide ("en-media" ∉ stack) &&
          (resolve resources (attrValue "hash" attrs)).isSome
       else true) && mediaFlat resources (elem :: stack) es
  | stack, Event.endElementNS _ :: es => mediaFlat resources stack.tail es
  | stack, Event.characters _ :: es => mediaFlat resources stack es

/-- Whether the event starts or ends an `en-media` element; the two flags and
`linkTitle` are only touched by the handlers of such events. -/
def isMediaEvent : Event → Bool
  | Event.startElementNS elem _ => elem == "en-media"
  | Event.endElementNS elem => elem == "en-media"
  | Event.characters _ => false

/-- The number of writer elements an open source element keeps open: two for
`en-note` (`html`, `body`), none for `en-todo` (its `input` stays open for
good and is counted apart), two for an `en-media` rendered as a container
with its `source`, one otherwise. -/
def elemWeight (media : Bool) (elem : String) : Nat :=
  if elem = "en-note" then 2
  else if elem = "en-todo" then 0
  else if elem = "en-media" then (if media then 2 else 1)
  else 1

/-- The writer elements kept open by the open source elements `stack`. -/
def stackWeight (media : Bool) (stack : List String) : Nat :=
  (stack.map (elemWeight media)).sum

/-- The invariant of a render between two events: the writer has had no close
with nothing open, its stack holds the elements of the open source elements
`stack` and one `input` for each of the `k` `en-todo` start events so far;
outside `en-media` both flags are down, and at most one of them is up. -/
def Inv (stack : List String) (st : RenderState) (k : Nat) : Prop :=
  (∃ sk, sinkStack [] st.writer = some sk ∧
    sk.length = stackWeight st.mediaTagStarted stack + k) ∧
  ("en-media" ∉ stack → st.mediaTagStarted = false ∧ st.linkTagStarted = false) ∧
  (st.mediaTagStarted = true → st.linkTagStarted = false) ∧
  stack.count "en-media" ≤ 1

end Render

/-- `HTMLOfENML(text, resources)`: the writer calls made while the events of
`text` are parsed; `none` when a handler throws. -/
def HTMLOfENML (events : List Event) (resources : String → Option Resource) :
    Option (List SinkCall) :=
  (Render.run resources Render.init events).map (fun st => st.writer)

end ENML

/-! # Theorems -/

namespace ENML

/-! ## CheckTodoInENML -/

theorem CheckTodo.run_nil (index : Int) (check : Bool) (st : CheckState) :
    CheckTodo.run index check st [] = st := rfl

theorem CheckTodo.run_cons (index : Int) (check : Bool) (st : CheckState) (e : Event)
    (es : List Event) :
    CheckTodo.run index check st (e :: es) =
      CheckTodo.run index check (CheckTodo.step index check st e) es := rfl

theorem CheckTodo.run_append (index : Int) (check : Bool) (st : CheckState)
    (xs ys : List Event) :
    CheckTodo.run index check st (xs ++ ys) =
      CheckTodo.run index check (CheckTodo.run index check st xs) ys := by
  simp [CheckTodo.run, List.foldl_append]

theorem countTodos_nil : countTodos [] = 0 := rfl

theorem countTodos_cons (e : Event) (es : List Event) :
    countTodos (e :: es) = (if isTodoStart e then 1 else 0) + countTodos es := by
  unfold countTodos
  rw [List.countP_cons]
  omega

theorem countTodos_append (xs ys : List Event) :
    countTodos (xs ++ ys) = countTodos xs + countTodos ys := by
  simp [countTodos, List.countP_append]

theorem passThrough_append (xs ys : List Event) :
    passThrough (xs ++ ys) = passThrough xs ++ passThrough ys := by
  induction xs with
  | nil => rfl
  | cons e es ih => simp [passThrough, ih]

/-- The counter moves by one on an `en-todo` start event and stays put on
every other event. -/
theorem CheckTodo.step_todo_cout (index : Int) (check : Bool) (st : CheckState) (e : Event) :
    (CheckTodo.step index check st e).todo_cout =
      st.todo_cout + (if isTodoStart e then 1 else 0) := by
  cases e with
  | startElementNS elem attrs =>
      by_cases h : elem = "en-todo"
      · by_cases hi : index = (st.todo_cout : Int) <;>
          simp [CheckTodo.step, CheckTodo.onStartElementNS, isTodoStart, h, hi]
      · simp [CheckTodo.step, CheckTodo.onStartElementNS, isTodoStart, h]
  | endElementNS elem => simp [CheckTodo.step, CheckTodo.onEndElementNS, isTodoStart]
  | characters chars => simp [CheckTodo.step, CheckTodo.onCharacters, isTodoStart]

theorem CheckTodo.run_todo_cout (index : Int) (check : Bool) (st : CheckState)
    (events : List Event) :
    (CheckTodo.run index check st events).todo_cout = st.todo_cout + countTodos events := by
  induction events generalizing st with
  | nil => simp [CheckTodo.run_nil, countTodos_nil]
  | cons e es ih =>
      rw [CheckTodo.run_cons, ih, CheckTodo.step_todo_cout, countTodos_cons]
      omega

/-- An event that is not the addressed `en-todo` start is copied unchanged. -/
theorem CheckTodo.step_writer_pass (index : Int) (check : Bool) (st : CheckState) (e : Event)
    (h : ¬ (isTodoStart e = true ∧ index = (st.todo_cout : Int))) :
    (CheckTodo.step index check st e).writer = st.writer ++ passEvent e := by
  cases e with
  | startElementNS elem attrs =>
      by_cases he : elem = "en-todo"
      · have hi : ¬ index = (st.todo_cout : Int) := fun hi => h ⟨by simp [isTodoStart, he], hi⟩
        simp [CheckTodo.step, CheckTodo.onStartElementNS, passEvent, he, hi]
      · simp [CheckTodo.step, CheckTodo.onStartElementNS, passEvent, he]
  | endElementNS elem => simp [CheckTodo.step, CheckTodo.onEndElementNS, passEvent]
  | characters chars => simp [CheckTodo.step, CheckTodo.onCharacters, passEvent]

/-- The addressed `en-todo` start: the element is opened, the attributes
other than `checked` are copied, and `checked="true"` is written when `check`. -/
theorem CheckTodo.step_writer_target (check : Bool) (st : CheckState) (attrs : List Attr) :
    (CheckTodo.step (st.todo_cout : Int) check st (Event.startElementNS "en-todo" attrs)).writer =
      st.writer ++ (SinkCall.startElement "en-todo" ::
        (writeAttrs (attrs.filter (fun attr => decide (attr.1 ≠ "checked"))) ++
          (if check then [SinkCall.writeAttribute "checked" (JsVal.str "true")] else []))) := by
  have hf : (fun attr : Attr => !(attr.1 == "checked")) =
      (fun attr : Attr => decide (attr.1 ≠ "checked")) := by
    funext attr
    by_cases h : attr.1 = "checked" <;> simp [h]
  simp [CheckTodo.step, CheckTodo.onStartElementNS, CheckTodo.writeUnchecked, hf]

/-- A stretch of events none of which is addressed is copied unchanged. -/
theorem CheckTodo.run_writer_pass (index : Int) (check : Bool) (st : CheckState)
    (events : List Event)
    (h : index < (st.todo_cout : Int) ∨ ((st.todo_cout + countTodos events : Nat) : Int) ≤ index) :
    (CheckTodo.run index check st events).writer = st.writer ++ passThrough events := by
  induction events generalizing st with
  | nil => simp [CheckTodo.run_nil, passThrough]
  | cons e es ih =>
      rw [CheckTodo.run_cons, ih, CheckTodo.step_writer_pass]
      · simp [passThrough]
      · rintro ⟨he, hi⟩
        rw [countTodos_cons, he] at h
        simp at h
        omega
      · rw [CheckTodo.step_todo_cout]
        rw [countTodos_cons] at h
        split_ifs at h ⊢ <;> simp at h ⊢ <;> omega

/-- A stream with more than `i` `en-todo` start events splits at the
`i`-th one. -/
theorem exists_todo_split (events : List Event) (i : Nat) (h : i < countTodos events) :
    ∃ pre attrs post, events = pre ++ Event.startElementNS "en-todo" attrs :: post ∧
      countTodos pre = i := by
  induction events generalizing i with
  | nil => simp [countTodos_nil] at h
  | cons e es ih =>
      by_cases he : isTodoStart e = true
      · cases i with
        | zero =>
            cases e with
            | startElementNS elem attrs =>
                simp [isTodoStart] at he
                exact ⟨[], attrs, es, by simp [he], rfl⟩
            | endElementNS elem => simp [isTodoStart] at he
            | characters chars => simp [isTodoStart] at he
        | succ j =>
            rw [countTodos_cons, he] at h
            obtain ⟨pre, attrs, post, hd, hc⟩ := ih j (by simp at h; omega)
            refine ⟨e :: pre, attrs, post, by simp [hd], ?_⟩
            rw [countTodos_cons, he, hc]
            simp
            omega
      · rw [countTodos_cons] at h
        simp [he] at h
        obtain ⟨pre, attrs, post, hd, hc⟩ := ih i h
        refine ⟨e :: pre, attrs, post, by simp [hd], ?_⟩
        rw [countTodos_cons, hc]
        simp [he]

/-- The whole output when the `index`-th `en-todo` start exists: the events
before it copied, the rewritten start tag, the events after it copied. -/
theorem CheckTodoInENML_split (pre post : List Event) (attrs : List Attr) (check : Bool) :
    CheckTodoInENML (pre ++ Event.startElementNS "en-todo" attrs :: post)
        (countTodos pre : Int) check =
      passThrough pre ++ (SinkCall.startElement "en-todo" ::
        (writeAttrs (attrs.filter (fun attr => decide (attr.1 ≠ "checked"))) ++
          (if check then [SinkCall.writeAttribute "checked" (JsVal.str "true")] else []))) ++
        passThrough post := by
  unfold CheckTodoInENML
  rw [CheckTodo.run_append, CheckTodo.run_cons]
  have h0 : (CheckTodo.run (countTodos pre : Int) check { todo_cout := 0, writer := [] }
      pre).todo_cout = countTodos pre := by
    rw [CheckTodo.run_todo_cout]; simp
  have hw : (CheckTodo.run (countTodos pre : Int) check { todo_cout := 0, writer := [] }
      pre).writer = passThrough pre := by
    rw [CheckTodo.run_writer_pass]
    · simp
    · right; simp
  generalize CheckTodo.run (countTodos pre : Int) check { todo_cout := 0, writer := [] } pre
    = s at h0 hw
  rw [CheckTodo.run_writer_pass]
  · rw [← h0, CheckTodo.step_writer_target, hw]
  · left
    rw [CheckTodo.step_todo_cout]
    simp [isTodoStart, h0]

theorem writeAttrs_append (xs ys : List Attr) :
    writeAttrs (xs ++ ys) = writeAttrs xs ++ writeAttrs ys := by
  simp [writeAttrs]

theorem readEvents_writeAttrs (stack : List String) (name : String) (attrs more : List Attr)
    (cs : List SinkCall) :
    readEvents stack (some (name, attrs)) (writeAttrs more ++ cs) =
      readEvents stack (some (name, attrs ++ more)) cs := by
  induction more generalizing attrs with
  | nil => simp [writeAttrs]
  | cons a rest ih =>
      have h := ih (attrs ++ [a])
      simp only [writeAttrs, List.map_cons, List.cons_append] at h ⊢
      rw [readEvents, h]
      simp

/-- Reading back a copied stream gives the stream, as long as every end
event of it closes the innermost open element. -/
theorem readEvents_passThrough (events : List Event) (stack : List String)
    (pending : Option (String × List Attr)) (h : (openElems stack events).isSome = true) :
    readEvents stack pending (passThrough events) = some (emitPending pending events) := by
  induction events generalizing stack pending with
  | nil => simp [passThrough, readEvents]
  | cons e es ih =>
      cases e with
      | startElementNS elem attrs =>
          simp only [openElems] at h
          have h2 := readEvents_writeAttrs (elem :: stack) elem [] attrs (passThrough es)
          simp only [passThrough, passEvent, List.cons_append, readEvents]
          rw [h2, ih (elem :: stack) _ h]
          cases pending <;> simp [emitPending]
      | endElementNS elem =>
          cases stack with
          | nil => simp [openElems] at h
          | cons top rest =>
              simp only [openElems] at h
              by_cases ht : elem = top
              · simp only [ht, if_true] at h
                simp only [passThrough, passEvent, List.cons_append, List.nil_append, readEvents]
                rw [ih rest none h]
                simp [emitPending, ht]
              · simp [ht] at h
      | characters chars =>
          simp only [openElems] at h
          simp only [passThrough, passEvent, List.cons_append, List.nil_append, readEvents]
          rw [ih stack none h]
          simp [emitPending]

theorem readBack_passThrough (events : List Event) (h : wellNested events = true) :
    readBack (passThrough events) = some events := by
  unfold readBack
  rw [readEvents_passThrough events [] none]
  · rfl
  · simp only [wellNested, beq_iff_eq] at h
    simp [h]

/-- The open-element stack does not look at attributes. -/
theorem openElems_attrs (pre post : List Event) (stack : List String) (elem : String)
    (attrs attrs2 : List Attr) :
    openElems stack (pre ++ Event.startElementNS elem attrs :: post) =
      openElems stack (pre ++ Event.startElementNS elem attrs2 :: post) := by
  induction pre generalizing stack with
  | nil => simp [openElems]
  | cons e es ih =>
      cases e with
      | startElementNS el at2 => simpa [openElems] using ih (el :: stack)
      | endElementNS el =>
          cases stack with
          | nil => simp [openElems]
          | cons top rest =>
              by_cases ht : el = top
              · simpa [openElems, ht] using ih rest
              · simp [openElems, ht]
      | characters chars => simpa [openElems] using ih stack

/-- C1. Toggle, target element: when `i` is smaller than the number of
`en-todo` start events, the stream splits at its `i`-th `en-todo` start event
(the one with exactly `i` such events before it), and the calls the handler
makes for that event are: open `en-todo`, every source attribute whose key is
not `checked` in source order, then `checked="true"` exactly when `check`;
they stand in the output between the calls for the events before and after.
The counter grows by one on an `en-todo` start and on no other event. -/
theorem toggle_target_element (events : List Event) (i : Nat) (check : Bool)
    (h : i < countTodos events) :
    (∃ pre attrs post, events = pre ++ Event.startElementNS "en-todo" attrs :: post ∧
      countTodos pre = i ∧
      (CheckTodo.run (i : Int) check { todo_cout := 0, writer := [] }
          (pre ++ [Event.startElementNS "en-todo" attrs])).writer =
        (CheckTodo.run (i : Int) check { todo_cout := 0, writer := [] } pre).writer ++
          (SinkCall.startElement "en-todo" ::
            (writeAttrs (attrs.filter (fun attr => decide (attr.1 ≠ "checked"))) ++
              (if check then [SinkCall.writeAttribute "checked" (JsVal.str "true")]
               else []))) ∧
      CheckTodoInENML events (i : Int) check =
        CheckTodoInENML pre (i : Int) check ++
          (SinkCall.startElement "en-todo" ::
            (writeAttrs (attrs.filter (fun attr => decide (attr.1 ≠ "checked"))) ++
              (if check then [SinkCall.writeAttribute "checked" (JsVal.str "true")]
               else []))) ++
          passThrough post) ∧
    (∀ (index : Int) (st : CheckState) (e : Event),
      (CheckTodo.step index check st e).todo_cout =
        st.todo_cout + (if isTodoStart e then 1 else 0)) ∧
    (∀ (index : Int) (st : CheckState) (es : List Event),
      (CheckTodo.run index check st es).todo_cout = st.todo_cout + countTodos es) := by
  refine ⟨?_, fun index st e => CheckTodo.step_todo_cout index check st e,
    fun index st es => CheckTodo.run_todo_cout index check st es⟩
  obtain ⟨pre, attrs, post, hd, hc⟩ := exists_todo_split events i h
  refine ⟨pre, attrs, post, hd, hc, ?_, ?_⟩
  · rw [CheckTodo.run_append, CheckTodo.run_cons, CheckTodo.run_nil]
    have h0 : (CheckTodo.run (i : Int) check { todo_cout := 0, writer := [] }
        pre).todo_cout = i := by
      rw [CheckTodo.run_todo_cout, hc]; simp
    generalize CheckTodo.run (i : Int) check { todo_cout := 0, writer := [] } pre = s at h0
    rw [← h0, CheckTodo.step_writer_target]
  · have hp : CheckTodoInENML pre (i : Int) check = passThrough pre := by
      unfold CheckTodoInENML
      rw [CheckTodo.run_writer_pass]
      · simp
      · right; simp [hc]
    rw [hp, hd, ← hc, CheckTodoInENML_split]

/-- The theorem `toggle_target_element` at a note with two `en-todo`
elements, the second addressed and unchecked. -/
theorem toggle_target_element_witness :
    1 < countTodos [Event.startElementNS "en-todo" [("checked", "true")],
        Event.endElementNS "en-todo",
        Event.startElementNS "en-todo" [("checked", "true"), ("id", "x")],
        Event.endElementNS "en-todo"] ∧
    CheckTodoInENML [Event.startElementNS "en-todo" [("checked", "true")],
        Event.endElementNS "en-todo",
        Event.startElementNS "en-todo" [("checked", "true"), ("id", "x")],
        Event.endElementNS "en-todo"] 1 false =
      [SinkCall.startElement "en-todo", SinkCall.writeAttribute "checked" (JsVal.str "true"),
        SinkCall.endElement,
        SinkCall.startElement "en-todo", SinkCall.writeAttribute "id" (JsVal.str "x"),
        SinkCall.endElement] ∧
    ∀ (index : Int) (st : CheckState) (e : Event),
      (CheckTodo.step index false st e).todo_cout =
        st.todo_cout + (if isTodoStart e then 1 else 0) :=
  ⟨by decide, by decide,
    (toggle_target_element [Event.startElementNS "en-todo" [("checked", "true")],
        Event.endElementNS "en-todo",
        Event.startElementNS "en-todo" [("checked", "true"), ("id", "x")],
        Event.endElementNS "en-todo"] 1 false (by decide)).2.1⟩

/-- The whole output of a toggle: the copied stream, or the copied stream with
the calls of the one addressed `en-todo` start event rewritten. -/
theorem CheckTodoInENML_cases (events : List Event) (index : Int) (check : Bool) :
    CheckTodoInENML events index check = passThrough events ∨
      ∃ pre attrs post, events = pre ++ Event.startElementNS "en-todo" attrs :: post ∧
        index = (countTodos pre : Int) ∧
        CheckTodoInENML events index check =
          passThrough pre ++
            (SinkCall.startElement "en-todo" ::
              (writeAttrs (attrs.filter (fun attr => decide (attr.1 ≠ "checked"))) ++
                (if check then [SinkCall.writeAttribute "checked" (JsVal.str "true")]
                 else []))) ++
            passThrough post := by
  by_cases hr : index < 0 ∨ (countTodos events : Int) ≤ index
  · left
    unfold CheckTodoInENML
    rw [CheckTodo.run_writer_pass]
    · simp
    · rcases hr with hr | hr
      · left; simp; omega
      · right; simpa using hr
  · right
    have h0 : 0 ≤ index := by omega
    obtain ⟨i, rfl⟩ := Int.eq_ofNat_of_zero_le h0
    have hi : i < countTodos events := by omega
    obtain ⟨pre, attrs, post, hd, hc⟩ := exists_todo_split events i hi
    refine ⟨pre, attrs, post, hd, by simp [hc], ?_⟩
    rw [hd, ← hc, CheckTodoInENML_split]

/-- C2. Toggle, frame: every event other than the `index`-th `en-todo`
start event is passed through unchanged: the calls its handler adds are
`passEvent` of it (a start event opens its name and writes all its attributes
in source order, also an existing `checked` of an `en-todo` that is not
addressed; an end event makes one close; a text event writes its text).  The
whole output is the copied stream, or the copied stream with the calls of the
one addressed `en-todo` start event replaced. -/
theorem toggle_frame (events : List Event) (index : Int) (check : Bool) :
    (∀ pre e post, events = pre ++ e :: post →
      ¬ (isTodoStart e = true ∧ index = (countTodos pre : Int)) →
      (CheckTodo.run index check { todo_cout := 0, writer := [] } (pre ++ [e])).writer =
        (CheckTodo.run index check { todo_cout := 0, writer := [] } pre).writer ++
          passEvent e) ∧
    (CheckTodoInENML events index check = passThrough events ∨
      ∃ pre attrs post, events = pre ++ Event.startElementNS "en-todo" attrs :: post ∧
        index = (countTodos pre : Int) ∧
        CheckTodoInENML events index check =
          passThrough pre ++
            (SinkCall.startElement "en-todo" ::
              (writeAttrs (attrs.filter (fun attr => decide (attr.1 ≠ "checked"))) ++
                (if check then [SinkCall.writeAttribute "checked" (JsVal.str "true")]
                 else []))) ++
            passThrough post) := by
  constructor
  · intro pre e post _ hne
    rw [CheckTodo.run_append, CheckTodo.run_cons, CheckTodo.run_nil]
    apply CheckTodo.step_writer_pass
    rw [CheckTodo.run_todo_cout]
    simpa using hne
  · exact CheckTodoInENML_cases events index check

/-- The theorem `toggle_frame` at a note whose first `en-todo` is checked and
whose second one is addressed: the first keeps its `checked` attribute. -/
theorem toggle_frame_witness :
    (CheckTodo.run 1 false { todo_cout := 0, writer := [] }
        ([] ++ [Event.startElementNS "en-todo" [("checked", "true")]])).writer =
      (CheckTodo.run 1 false { todo_cout := 0, writer := [] } []).writer ++
        [SinkCall.startElement "en-todo",
          SinkCall.writeAttribute "checked" (JsVal.str "true")] :=
  (toggle_frame [Event.startElementNS "en-todo" [("checked", "true")],
      Event.characters "a", Event.startElementNS "en-todo" [("checked", "true")]] 1 false).1
    [] (Event.startElementNS "en-todo" [("checked", "true")])
    [Event.characters "a", Event.startElementNS "en-todo" [("checked", "true")]]
    rfl (by decide)

/-- C3. Toggle, out-of-range index: with an index at or beyond the number of
`en-todo` start events the call returns the identity pass-through of its
input (every start event its name and all attributes in order, every end
event one close, every text event its text), and for a well-nested input the
document read back from the writer is the input event stream. -/
theorem toggle_out_of_range (events : List Event) (index : Int) (check : Bool)
    (h : (countTodos events : Int) ≤ index) :
    CheckTodoInENML events index check = passThrough events ∧
    (wellNested events = true →
      readBack (CheckTodoInENML events index check) = some events) := by
  have hp : CheckTodoInENML events index check = passThrough events := by
    unfold CheckTodoInENML
    rw [CheckTodo.run_writer_pass]
    · simp
    · right; simpa using h
  exact ⟨hp, fun hw => by rw [hp]; exact readBack_passThrough events hw⟩

/-- The theorem `toggle_out_of_range` at index 999 of a note with one
checked `en-todo`. -/
theorem toggle_out_of_range_witness :
    (countTodos [Event.startElementNS "en-note" [],
        Event.startElementNS "en-todo" [("checked", "true")], Event.endElementNS "en-todo",
        Event.characters "milk", Event.endElementNS "en-note"] : Int) ≤ 999 ∧
    wellNested [Event.startElementNS "en-note" [],
        Event.startElementNS "en-todo" [("checked", "true")], Event.endElementNS "en-todo",
        Event.characters "milk", Event.endElementNS "en-note"] = true ∧
    readBack (CheckTodoInENML [Event.startElementNS "en-note" [],
        Event.startElementNS "en-todo" [("checked", "true")], Event.endElementNS "en-todo",
        Event.characters "milk", Event.endElementNS "en-note"] 999 true) =
      some [Event.startElementNS "en-note" [],
        Event.startElementNS "en-todo" [("checked", "true")], Event.endElementNS "en-todo",
        Event.characters "milk", Event.endElementNS "en-note"] :=
  ⟨by decide, by decide,
    (toggle_out_of_range [Event.startElementNS "en-note" [],
        Event.startElementNS "en-todo" [("checked", "true")], Event.endElementNS "en-todo",
        Event.characters "milk", Event.endElementNS "en-note"] 999 true (by decide)).2
      (by decide)⟩

/-- The rewritten start tag as a start event: the calls of the addressed
`en-todo` are the copy of an `en-todo` start event with the new attributes. -/
theorem passThrough_target (pre post : List Event) (attrs : List Attr) (check : Bool) :
    passThrough pre ++
        (SinkCall.startElement "en-todo" ::
          (writeAttrs (attrs.filter (fun attr => decide (attr.1 ≠ "checked"))) ++
            (if check then [SinkCall.writeAttribute "checked" (JsVal.str "true")]
             else []))) ++
        passThrough post =
      passThrough (pre ++ Event.startElementNS "en-todo"
        (attrs.filter (fun attr => decide (attr.1 ≠ "checked")) ++
          (if check then [("checked", "true")] else [])) :: post) := by
  rw [passThrough_append]
  cases check <;> simp [passThrough, passEvent, writeAttrs]

/-- The attributes the addressed element is written with are a fixed point of
the rewrite. -/
theorem filter_rewritten (attrs : List Attr) (check : Bool) :
    (attrs.filter (fun attr => decide (attr.1 ≠ "checked")) ++
        (if check then [(("checked", "true") : Attr)] else [])).filter
          (fun attr => decide (attr.1 ≠ "checked")) =
      attrs.filter (fun attr => decide (attr.1 ≠ "checked")) := by
  cases check <;> simp [List.filter_filter]

/-- The document a toggle writes, for a well-nested input: it reads back as
an event stream, and toggling that stream again makes the same calls. -/
theorem toggle_readBack (events : List Event) (index : Int) (check : Bool)
    (h : wellNested events = true) :
    ∃ doc, readBack (CheckTodoInENML events index check) = some doc ∧
      wellNested doc = true ∧ countTodos doc = countTodos events ∧
      CheckTodoInENML doc index check = CheckTodoInENML events index check := by
  rcases CheckTodoInENML_cases events index check with hp | ⟨pre, attrs, post, hd, hi, ho⟩
  · exact ⟨events, by rw [hp]; exact readBack_passThrough events h, h, rfl, rfl⟩
  · rw [passThrough_target] at ho
    have hw : wellNested (pre ++ Event.startElementNS "en-todo"
        (attrs.filter (fun attr => decide (attr.1 ≠ "checked")) ++
          (if check then [("checked", "true")] else [])) :: post) = true := by
      rw [hd] at h
      simp only [wellNested] at h ⊢
      rw [openElems_attrs pre post [] "en-todo" _ attrs]
      exact h
    refine ⟨_, by rw [ho]; exact readBack_passThrough _ hw, hw, ?_, ?_⟩
    · rw [hd]
      simp [countTodos_append, countTodos_cons, isTodoStart]
    · rw [ho, hi, CheckTodoInENML_split, filter_rewritten, passThrough_target]

/-- C4. Toggle idempotence: for a well-nested stream the output of a toggle
reads back as a document, and the same toggle applied to that document
writes the same output as the single application. -/
theorem toggle_idempotent (events : List Event) (index : Int) (check : Bool)
    (h : wellNested events = true) :
    ∃ doc, readBack (CheckTodoInENML events index check) = some doc ∧
      CheckTodoInENML doc index check = CheckTodoInENML events index check ∧
      readBack (CheckTodoInENML doc index check) = some doc := by
  obtain ⟨doc, hr, _, _, ht⟩ := toggle_readBack events index check h
  exact ⟨doc, hr, ht, by rw [ht, hr]⟩

/-- The theorem `toggle_idempotent` at a note with one checked `en-todo`
that is being unchecked. -/
theorem toggle_idempotent_witness :
    wellNested [Event.startElementNS "en-note" [],
        Event.startElementNS "en-todo" [("checked", "true")], Event.endElementNS "en-todo",
        Event.characters "milk", Event.endElementNS "en-note"] = true ∧
    ∃ doc, readBack (CheckTodoInENML [Event.startElementNS "en-note" [],
        Event.startElementNS "en-todo" [("checked", "true")], Event.endElementNS "en-todo",
        Event.characters "milk", Event.endElementNS "en-note"] 0 false) = some doc ∧
      CheckTodoInENML doc 0 false = CheckTodoInENML [Event.startElementNS "en-note" [],
        Event.startElementNS "en-todo" [("checked", "true")], Event.endElementNS "en-todo",
        Event.characters "milk", Event.endElementNS "en-note"] 0 false ∧
      readBack (CheckTodoInENML doc 0 false) = some doc :=
  ⟨by decide, toggle_idempotent _ 0 false (by decide)⟩

/-! ## TodosOfENML -/

theorem Todos.scan_nil (st : TodosState) : Todos.run st [] = st := rfl

theorem Todos.scan_cons (st : TodosState) (e : Event) (es : List Event) :
    Todos.run st (e :: es) = Todos.run (Todos.step st e) es := rfl

theorem Todos.scan_append (st : TodosState) (xs ys : List Event) :
    Todos.run st (xs ++ ys) = Todos.run (Todos.run st xs) ys := by
  simp [Todos.run, List.foldl_append]

theorem Todos.matchHere_mem (alts : List (List Char)) (s m : List Char)
    (h : Todos.matchHere alts s = some m) : m ∈ alts :=
  List.mem_of_find?_eq_some h

theorem Todos.firstMatch_mem (alts : List (List Char)) (s m : List Char)
    (h : Todos.firstMatch alts s = some m) : m ∈ alts := by
  induction s with
  | nil => exact Todos.matchHere_mem alts [] m h
  | cons c cs ih =>
      simp only [Todos.firstMatch] at h
      cases hm : Todos.matchHere alts (c :: cs) with
      | some m2 =>
          rw [hm] at h
          simp only [Option.some.injEq] at h
          exact Todos.matchHere_mem alts (c :: cs) m (h ▸ hm)
      | none =>
          rw [hm] at h
          exact ih h

/-- The test of the start handler holds for exactly the five names. -/
theorem Todos.isInline_iff (elem : String) :
    Todos.isInline elem = true ↔ elem ∈ ["b", "u", "i", "font", "strong"] := by
  constructor
  · intro h
    unfold Todos.isInline at h
    cases hm : Todos.firstMatch Todos.inlineAlts elem.data with
    | none => simp [hm] at h
    | some m =>
        rw [hm] at h
        have he : elem.data = m := by simpa using h
        have hmem := Todos.firstMatch_mem _ _ _ hm
        rw [← he] at hmem
        simp only [Todos.inlineAlts, List.mem_cons, List.mem_singleton, List.not_mem_nil,
          or_false] at hmem
        simp only [List.mem_cons, List.mem_singleton, List.not_mem_nil, or_false]
        rcases hmem with h1 | h1 | h1 | h1 | h1
        · exact Or.inl (String.ext h1)
        · exact Or.inr (Or.inl (String.ext h1))
        · exact Or.inr (Or.inr (Or.inl (String.ext h1)))
        · exact Or.inr (Or.inr (Or.inr (Or.inl (String.ext h1))))
        · exact Or.inr (Or.inr (Or.inr (Or.inr (String.ext h1))))
  · intro h
    simp only [List.mem_cons, List.mem_singleton, List.not_mem_nil, or_false] at h
    rcases h with h | h | h | h | h <;> subst h <;> decide

theorem Todos.not_isInline_todo : Todos.isInline "en-todo" = false := by decide

/-- The `en-todo` branch of the start handler never adds to `todos`. -/
theorem Todos.onStart_todo (st : TodosState) (attrs : List Attr) :
    Todos.onStartElementNS st "en-todo" attrs =
      { todos := st.todos, onTodo := true, text := some "",
        checked := Todos.hasCheckedTrue attrs } := by
  simp [Todos.onStartElementNS, Todos.not_isInline_todo]

/-- The last branch of the start handler. -/
theorem Todos.onStart_other (st : TodosState) (elem : String) (attrs : List Attr)
    (h1 : Todos.isInline elem = false) (h2 : elem ≠ "en-todo") :
    Todos.onStartElementNS st elem attrs =
      { todos := if st.onTodo then st.todos ++ [{ text := st.text, checked := st.checked }]
                 else st.todos,
        onTodo := false, text := st.text, checked := st.checked } := by
  simp [Todos.onStartElementNS, h1, h2]

/-- C7, as the code runs it. The claim has an `en-todo` start event append
the buffered record when `onTodo` is true; the `en-todo` branch of the start
handler leaves `todos` as it is, whatever the state, and only resets `text`,
`checked` and `onTodo`.  In the stream `en-todo, "A", en-todo, "B", div` the
record of the first element is lost: the result is the one record of "B". -/
theorem todos_start_todo_drops_buffer :
    (∀ (st : TodosState) (attrs : List Attr),
      Todos.step st (Event.startElementNS "en-todo" attrs) =
        { todos := st.todos, onTodo := true, text := some "",
          checked := Todos.hasCheckedTrue attrs }) ∧
    Todos.step { todos := [], onTodo := true, text := some "A", checked := false }
        (Event.startElementNS "en-todo" []) =
      { todos := [], onTodo := true, text := some "", checked := false } ∧
    TodosOfENML [Event.startElementNS "en-todo" [], Event.characters "A",
        Event.startElementNS "en-todo" [], Event.characters "B",
        Event.startElementNS "div" []] =
      [{ text := some "B", checked := false }] :=
  ⟨fun st attrs => Todos.onStart_todo st attrs, by decide, by decide⟩

/-- C8. Extract, transparency and closing of the todo context: a start
event leaves every extractor state unchanged exactly when its name is one of
`b`, `u`, `i`, `font`, `strong`; every other start event that is not
`en-todo` pushes the buffered record when `onTodo` is true and sets `onTodo`
to false (so do `div`, `br`, `ul`, `li` and `bu`); an end event never
changes the state; a text event appends to `text` when `onTodo` is true and
changes nothing when it is false. -/
theorem todos_transparency :
    (∀ (elem : String) (attrs : List Attr),
      (∀ st : TodosState, Todos.step st (Event.startElementNS elem attrs) = st) ↔
        elem ∈ ["b", "u", "i", "font", "strong"]) ∧
    (∀ (st : TodosState) (elem : String) (attrs : List Attr),
      elem ∉ ["b", "u", "i", "font", "strong"] → elem ≠ "en-todo" →
      Todos.step st (Event.startElementNS elem attrs) =
        { todos := if st.onTodo then st.todos ++ [{ text := st.text, checked := st.checked }]
                   else st.todos,
          onTodo := false, text := st.text, checked := st.checked }) ∧
    (∀ elem ∈ ["div", "br", "ul", "li", "bu"], ∀ (st : TodosState) (attrs : List Attr),
      st.onTodo = true →
      Todos.step st (Event.startElementNS elem attrs) =
        { todos := st.todos ++ [{ text := st.text, checked := st.checked }],
          onTodo := false, text := st.text, checked := st.checked }) ∧
    (∀ (st : TodosState) (elem : String), Todos.step st (Event.endElementNS elem) = st) ∧
    (∀ (st : TodosState) (chars : String),
      Todos.step st (Event.characters chars) =
        if st.onTodo then
          { todos := st.todos, onTodo := true, text := some (st.text.getD "null" ++ chars),
            checked := st.checked }
        else st) := by
  refine ⟨?_, ?_, ?_, fun st elem => rfl, ?_⟩
  · intro elem attrs
    constructor
    · intro h
      by_contra hn
      have hi : Todos.isInline elem = false := by
        rw [← Bool.not_eq_true, Todos.isInline_iff]; exact hn
      by_cases ht : elem = "en-todo"
      · have h0 := h Todos.init
        rw [ht] at h0
        simp only [Todos.step] at h0
        rw [Todos.onStart_todo] at h0
        simp [Todos.init] at h0
      · have h0 := h { todos := [], onTodo := true, text := none, checked := false }
        simp only [Todos.step] at h0
        rw [Todos.onStart_other _ _ _ hi ht] at h0
        simp at h0
    · intro h st
      have hi := (Todos.isInline_iff elem).2 h
      simp [Todos.step, Todos.onStartElementNS, hi]
  · intro st elem attrs hn ht
    have hi : Todos.isInline elem = false := by
      rw [← Bool.not_eq_true, Todos.isInline_iff]; exact hn
    simp only [Todos.step]
    exact Todos.onStart_other st elem attrs hi ht
  · intro elem he st attrs hon
    have hi : Todos.isInline elem = false := by
      simp only [List.mem_cons, List.mem_singleton, List.not_mem_nil, or_false] at he
      rcases he with h | h | h | h | h <;> subst h <;> decide
    have ht : elem ≠ "en-todo" := by
      simp only [List.mem_cons, List.mem_singleton, List.not_mem_nil, or_false] at he
      rcases he with h | h | h | h | h <;> subst h <;> decide
    simp only [Todos.step]
    rw [Todos.onStart_other st elem attrs hi ht, hon]
    simp
  · intro st chars
    cases hon : st.onTodo <;> simp [Todos.step, Todos.onCharacters, hon]

/-- The theorem `todos_transparency` at a `bu` start event in an open todo
context: the buffered record is pushed and the context closed. -/
theorem todos_transparency_witness :
    Todos.step { todos := [], onTodo := true, text := some "A", checked := true }
        (Event.startElementNS "bu" []) =
      { todos := [{ text := some "A", checked := true }], onTodo := false,
        text := some "A", checked := true } :=
  todos_transparency.2.1 { todos := [], onTodo := true, text := some "A", checked := true }
    "bu" [] (by decide) (by decide)

/-- Events that open only inline elements push nothing and keep the todo
context as it is. -/
theorem Todos.run_inline (st : TodosState) (events : List Event)
    (h : ∀ e ∈ events, ∀ elem attrs, e = Event.startElementNS elem attrs →
      elem ∈ ["b", "u", "i", "font", "strong"]) :
    (Todos.run st events).todos = st.todos ∧ (Todos.run st events).onTodo = st.onTodo ∧
      (Todos.run st events).checked = st.checked := by
  induction events generalizing st with
  | nil => simp [Todos.scan_nil]
  | cons e es ih =>
      have hes : ∀ e2 ∈ es, ∀ elem attrs, e2 = Event.startElementNS elem attrs →
          elem ∈ ["b", "u", "i", "font", "strong"] :=
        fun e2 he2 => h e2 (List.mem_cons_of_mem e he2)
      rw [Todos.scan_cons]
      obtain ⟨h1, h2, h3⟩ := ih (Todos.step st e) hes
      rw [h1, h2, h3]
      cases e with
      | startElementNS elem attrs =>
          have hi := (Todos.isInline_iff elem).2 (h _ (List.mem_cons_self _ _) elem attrs rfl)
          simp [Todos.step, Todos.onStartElementNS, hi]
      | endElementNS elem => simp [Todos.step, Todos.onEndElementNS]
      | characters chars =>
          cases hon : st.onTodo <;> simp [Todos.step, Todos.onCharacters, hon]

/-- C9. Extract, no flush at the end of the document: when the last
`en-todo` start event is followed by no start event other than `b`, `u`, `i`,
`font` or `strong`, the returned list is the list as it stood before that
`en-todo` started, so no record of it is returned; its record is still
buffered (`onTodo` is true) when the events end.  A note whose only element
is one `en-todo` followed by text yields the empty list. -/
theorem todos_no_final_flush (pre post : List Event) (attrs : List Attr)
    (h : ∀ e ∈ post, ∀ elem a, e = Event.startElementNS elem a →
      elem ∈ ["b", "u", "i", "font", "strong"]) :
    TodosOfENML (pre ++ Event.startElementNS "en-todo" attrs :: post) = TodosOfENML pre ∧
    (Todos.run Todos.init (pre ++ Event.startElementNS "en-todo" attrs :: post)).onTodo = true ∧
    (Todos.run Todos.init (pre ++ Event.startElementNS "en-todo" attrs :: post)).checked =
      Todos.hasCheckedTrue attrs := by
  unfold TodosOfENML
  rw [Todos.scan_append, Todos.scan_cons]
  obtain ⟨h1, h2, h3⟩ := Todos.run_inline
    (Todos.step (Todos.run Todos.init pre) (Event.startElementNS "en-todo" attrs)) post h
  rw [h1, h2, h3]
  simp only [Todos.step]
  rw [Todos.onStart_todo]
  exact ⟨rfl, rfl, rfl⟩

/-- The theorem `todos_no_final_flush` at the note
`<en-note><en-todo/>buy <b>milk</b></en-note>`: nothing is returned. -/
theorem todos_no_final_flush_witness :
    TodosOfENML ([Event.startElementNS "en-note" []] ++
        Event.startElementNS "en-todo" [("checked", "true")] ::
          [Event.endElementNS "en-todo", Event.characters "buy ",
            Event.startElementNS "b" [], Event.characters "milk", Event.endElementNS "b",
            Event.endElementNS "en-note"]) = [] :=
  (todos_no_final_flush [Event.startElementNS "en-note" []]
    [Event.endElementNS "en-todo", Event.characters "buy ",
      Event.startElementNS "b" [], Event.characters "milk", Event.endElementNS "b",
      Event.endElementNS "en-note"] [("checked", "true")] (by
        intro e he elem a hea
        subst hea
        simp at he
        simp [he])).1.trans (by decide)

/-- C5, as the code runs it. In the well-nested note
`<en-note><en-todo/>A<en-todo/>B<div/></en-note>` index 0 is in range of
the `en-todo` elements and of the extracted list.  The toggle checks the first
`en-todo`, and the list extracted from its output is the same one record of
"B" as before, unchecked: position 0 does not report `checked = true`. -/
theorem toggle_extract_round_trip_fails :
    wellNested [Event.startElementNS "en-note" [],
        Event.startElementNS "en-todo" [], Event.endElementNS "en-todo", Event.characters "A",
        Event.startElementNS "en-todo" [], Event.endElementNS "en-todo", Event.characters "B",
        Event.startElementNS "div" [], Event.endElementNS "div",
        Event.endElementNS "en-note"] = true ∧
    TodosOfENML [Event.startElementNS "en-note" [],
        Event.startElementNS "en-todo" [], Event.endElementNS "en-todo", Event.characters "A",
        Event.startElementNS "en-todo" [], Event.endElementNS "en-todo", Event.characters "B",
        Event.startElementNS "div" [], Event.endElementNS "div",
        Event.endElementNS "en-note"] = [{ text := some "B", checked := false }] ∧
    readBack (CheckTodoInENML [Event.startElementNS "en-note" [],
        Event.startElementNS "en-todo" [], Event.endElementNS "en-todo", Event.characters "A",
        Event.startElementNS "en-todo" [], Event.endElementNS "en-todo", Event.characters "B",
        Event.startElementNS "div" [], Event.endElementNS "div",
        Event.endElementNS "en-note"] 0 true) =
      some [Event.startElementNS "en-note" [],
        Event.startElementNS "en-todo" [("checked", "true")], Event.endElementNS "en-todo",
        Event.characters "A",
        Event.startElementNS "en-todo" [], Event.endElementNS "en-todo", Event.characters "B",
        Event.startElementNS "div" [], Event.endElementNS "div",
        Event.endElementNS "en-note"] ∧
    TodosOfENML [Event.startElementNS "en-note" [],
        Event.startElementNS "en-todo" [("checked", "true")], Event.endElementNS "en-todo",
        Event.characters "A",
        Event.startElementNS "en-todo" [], Event.endElementNS "en-todo", Event.characters "B",
        Event.startElementNS "div" [], Event.endElementNS "div",
        Event.endElementNS "en-note"] = [{ text := some "B", checked := false }] :=
  ⟨by decide, by decide, by decide, by decide⟩

/-- C6, as the code runs it. In the note
`<en-note><en-todo/>A<en-todo checked="true"/>B<div/></en-note>` the
extracted list has one record, at position 0, and it is the record of the
second `en-todo` (text "B", checked), while index 0 of the toggle addresses
the first `en-todo`, which has no `checked` attribute and the text "A". -/
theorem extract_index_differs_from_toggle_index :
    TodosOfENML [Event.startElementNS "en-note" [],
        Event.startElementNS "en-todo" [], Event.endElementNS "en-todo", Event.characters "A",
        Event.startElementNS "en-todo" [("checked", "true")], Event.endElementNS "en-todo",
        Event.characters "B",
        Event.startElementNS "div" [], Event.endElementNS "div",
        Event.endElementNS "en-note"] = [{ text := some "B", checked := true }] ∧
    CheckTodoInENML [Event.startElementNS "en-note" [],
        Event.startElementNS "en-todo" [], Event.endElementNS "en-todo", Event.characters "A",
        Event.startElementNS "en-todo" [("checked", "true")], Event.endElementNS "en-todo",
        Event.characters "B",
        Event.startElementNS "div" [], Event.endElementNS "div",
        Event.endElementNS "en-note"] 0 true =
      passThrough [Event.startElementNS "en-note" [],
        Event.startElementNS "en-todo" [("checked", "true")], Event.endElementNS "en-todo",
        Event.characters "A",
        Event.startElementNS "en-todo" [("checked", "true")], Event.endElementNS "en-todo",
        Event.characters "B",
        Event.startElementNS "div" [], Event.endElementNS "div",
        Event.endElementNS "en-note"] :=
  ⟨by decide, by decide⟩

end ENML

namespace ENML

/-! ## HTMLOfENML -/

theorem sinkStack_append (s : List String) (xs ys : List SinkCall) :
    sinkStack s (xs ++ ys) = (sinkStack s xs).bind (fun s2 => sinkStack s2 ys) := by
  induction xs generalizing s with
  | nil => simp [sinkStack]
  | cons c cs ih =>
      cases c with
      | startElement name => simp [sinkStack, ih]
      | writeAttribute k v => simp [sinkStack, ih]
      | text t => simp [sinkStack, ih]
      | endElement =>
          cases s with
          | nil => simp [sinkStack]
          | cons a r => simp [sinkStack, ih]
      | writeElement n c => simp [sinkStack, ih]

theorem sinkStack_writeAttrs (s : List String) (attrs : List Attr) :
    sinkStack s (writeAttrs attrs) = some s := by
  induction attrs with
  | nil => simp [writeAttrs, sinkStack]
  | cons a rest ih =>
      simp only [writeAttrs, List.map_cons, sinkStack] at ih ⊢
      exact ih

theorem sinkStack_writeIfTruthy (s : List String) (key : String) (v : Option String) :
    sinkStack s (Render.writeIfTruthy key v) = some s := by
  cases v with
  | none => simp [Render.writeIfTruthy, sinkStack]
  | some x =>
      by_cases hx : x = "" <;> simp [Render.writeIfTruthy, sinkStack, hx]

theorem Render.stackWeight_cons (media : Bool) (elem : String) (stack : List String) :
    Render.stackWeight media (elem :: stack) =
      Render.elemWeight media elem + Render.stackWeight media stack := by
  simp [Render.stackWeight]

/-- Without an open `en-media` the weight does not depend on the flag. -/
theorem Render.stackWeight_flag (m1 m2 : Bool) (stack : List String)
    (h : "en-media" ∉ stack) :
    Render.stackWeight m1 stack = Render.stackWeight m2 stack := by
  induction stack with
  | nil => rfl
  | cons a rest ih =>
      simp only [List.mem_cons, not_or] at h
      rw [Render.stackWeight_cons, Render.stackWeight_cons, ih h.2]
      have ha : ¬ a = "en-media" := fun e => h.1 e.symm
      simp [Render.elemWeight, ha]

theorem Render.inv_characters (stack : List String) (st : RenderState) (k : Nat)
    (chars : String) (h : Render.Inv stack st k) :
    Render.Inv stack (Render.onCharacters st chars) k := by
  obtain ⟨⟨sk, hsk, hlen⟩, h2, h3, h4⟩ := h
  refine ⟨⟨sk, ?_, hlen⟩, h2, h3, h4⟩
  simp [Render.onCharacters, sinkStack_append, hsk, sinkStack]

theorem Render.inv_end (stack : List String) (st : RenderState) (k : Nat) (elem : String)
    (h : Render.Inv (elem :: stack) st k) :
    Render.Inv stack (Render.onEndElementNS st elem) k := by
  obtain ⟨⟨sk, hsk, hlen⟩, h2, h3, h4⟩ := h
  rw [Render.stackWeight_cons] at hlen
  by_cases hn : elem = "en-note"
  · subst hn
    have h2b : "en-media" ∉ stack → st.mediaTagStarted = false ∧ st.linkTagStarted = false :=
      fun hm => h2 (by simp [hm])
    have h4b : stack.count "en-media" ≤ 1 := by
      rw [List.count_cons] at h4; omega
    match sk, hsk, hlen with
    | [], _, hlen => simp [Render.elemWeight] at hlen; omega
    | [_], _, hlen => simp [Render.elemWeight] at hlen; omega
    | a :: b :: rest, hsk, hlen =>
        refine ⟨⟨rest, ?_, ?_⟩, h2b, h3, h4b⟩
        · simp [Render.onEndElementNS, sinkStack_append, hsk, sinkStack]
        · simp [Render.onEndElementNS, Render.elemWeight] at hlen ⊢; omega
  · by_cases ht : elem = "en-todo"
    · subst ht
      have h2b : "en-media" ∉ stack → st.mediaTagStarted = false ∧ st.linkTagStarted = false :=
        fun hm => h2 (by simp [hm])
      have h4b : stack.count "en-media" ≤ 1 := by
        rw [List.count_cons] at h4; omega
      refine ⟨⟨sk, ?_, ?_⟩, h2b, ?_, h4b⟩
      · simp [Render.onEndElementNS, hsk]
      · simp [Render.onEndElementNS, Render.elemWeight] at hlen ⊢; omega
      · simpa [Render.onEndElementNS] using h3
    · by_cases hm : elem = "en-media"
      · subst hm
        have hnot : "en-media" ∉ stack := by
          rw [List.count_cons] at h4
          simp at h4
          exact List.count_eq_zero.1 h4
        have h4b : stack.count "en-media" ≤ 1 := by
          rw [List.count_eq_zero.2 hnot]; omega
        cases hmt : st.mediaTagStarted with
        | true =>
            have hl := h3 hmt
            rw [hmt] at hlen
            match sk, hsk, hlen with
            | [], _, hlen => simp [Render.elemWeight] at hlen; omega
            | [_], _, hlen => simp [Render.elemWeight] at hlen; omega
            | a :: b :: rest, hsk, hlen =>
                refine ⟨⟨rest, ?_, ?_⟩, ?_, ?_, h4b⟩
                · simp [Render.onEndElementNS, hmt, sinkStack_append, hsk, sinkStack]
                · simp only [Render.onEndElementNS, hmt]
                  simp [Render.elemWeight] at hlen ⊢
                  rw [Render.stackWeight_flag false true stack hnot]
                  omega
                · intro _
                  simp [Render.onEndElementNS, hmt, hl]
                · simp [Render.onEndElementNS, hmt]
        | false =>
            rw [hmt] at hlen
            match sk, hsk, hlen with
            | [], _, hlen => simp [Render.elemWeight] at hlen; omega
            | a :: rest, hsk, hlen =>
                cases hlt : st.linkTagStarted with
                | true =>
                    refine ⟨⟨rest, ?_, ?_⟩, ?_, ?_, h4b⟩
                    · simp [Render.onEndElementNS, hmt, hlt, sinkStack_append, hsk, sinkStack]
                    · simp only [Render.onEndElementNS, hmt, hlt]
                      simp [Render.elemWeight] at hlen ⊢
                      omega
                    · intro _
                      simp [Render.onEndElementNS, hmt, hlt]
                    · simp [Render.onEndElementNS, hmt, hlt]
                | false =>
                    refine ⟨⟨rest, ?_, ?_⟩, ?_, ?_, h4b⟩
                    · simp [Render.onEndElementNS, hmt, hlt, sinkStack_append, hsk, sinkStack]
                    · simp only [Render.onEndElementNS, hmt, hlt]
                      simp [Render.elemWeight] at hlen ⊢
                      omega
                    · intro _
                      simp [Render.onEndElementNS, hmt, hlt]
                    · simp [Render.onEndElementNS, hmt, hlt]
      · have h2b : "en-media" ∉ stack → st.mediaTagStarted = false ∧ st.linkTagStarted = false :=
          fun hx => h2 (by simp [hx, Ne.symm hm])
        have h4b : stack.count "en-media" ≤ 1 := by
          rw [List.count_cons] at h4; omega
        match sk, hsk, hlen with
        | [], _, hlen => simp [Render.elemWeight, hn, ht, hm] at hlen; omega
        | a :: rest, hsk, hlen =>
            refine ⟨⟨rest, ?_, ?_⟩, ?_, ?_, h4b⟩
            · simp [Render.onEndElementNS, hn, ht, hm, sinkStack_append, hsk, sinkStack]
            · simp [Render.onEndElementNS, Render.elemWeight, hn, ht, hm] at hlen ⊢; omega
            · simpa [Render.onEndElementNS, hn, ht, hm] using h2b
            · simpa [Render.onEndElementNS, hn, ht, hm] using h3

theorem Render.inv_start (resources : String → Option Resource) (stack : List String)
    (st st2 : RenderState) (k : Nat) (elem : String) (attrs : List Attr)
    (h : Render.Inv stack st k)
    (hflat : elem = "en-media" → "en-media" ∉ stack ∧
      (Render.resolve resources (Render.attrValue "hash" attrs)).isSome = true)
    (hs : Render.onStartElementNS resources st elem attrs = some st2) :
    Render.Inv (elem :: stack) st2 (k + if elem = "en-todo" then 1 else 0) := by
  obtain ⟨⟨sk, hsk, hlen⟩, h2, h3, h4⟩ := h
  by_cases hn : elem = "en-note"
  · subst hn
    simp only [Render.onStartElementNS, if_true, Option.some.injEq] at hs
    subst hs
    refine ⟨⟨"body" :: "html" :: sk, ?_, ?_⟩, ?_, h3, ?_⟩
    · by_cases hf : Render.firstIsStyle attrs = true <;>
        simp [sinkStack_append, hsk, sinkStack, sinkStack_writeAttrs, hf]
    · simp [Render.stackWeight_cons, Render.elemWeight, hlen]; omega
    · intro hx
      exact h2 (fun hm => hx (List.mem_cons_of_mem _ hm))
    · rw [List.count_cons]; simpa using h4
  · by_cases ht : elem = "en-todo"
    · subst ht
      simp only [Render.onStartElementNS, hn, if_false, if_true, Option.some.injEq] at hs
      subst hs
      refine ⟨⟨"input" :: sk, ?_, ?_⟩, ?_, h3, ?_⟩
      · simp [sinkStack_append, hsk, sinkStack, sinkStack_writeAttrs]
      · simp [Render.stackWeight_cons, Render.elemWeight, hlen]; omega
      · intro hx
        exact h2 (fun hm => hx (List.mem_cons_of_mem _ hm))
      · rw [List.count_cons]; simpa using h4
    · by_cases hm : elem = "en-media"
      · subst hm
        obtain ⟨hnot, hres⟩ := hflat rfl
        obtain ⟨hmf, hlf⟩ := h2 hnot
        have hc : ("en-media" :: stack).count "en-media" ≤ 1 := by
          rw [List.count_cons, List.count_eq_zero.2 hnot]; simp
        obtain ⟨r, hr⟩ := Option.isSome_iff_exists.1 hres
        rw [hmf] at hlen
        simp only [Render.onStartElementNS, hn, ht, if_false, if_true, Render.startMedia,
          hr] at hs
        cases hty : Render.attrValue "type" attrs with
        | none => simp [hty] at hs
        | some type =>
            simp only [hty] at hs
            by_cases hi : Render.typeMatches type "image" = true
            · simp only [hi, if_true, hlf, Option.some.injEq] at hs
              subst hs
              refine ⟨⟨"img" :: sk, ?_, ?_⟩, ?_, ?_, hc⟩
              · simp [sinkStack_append, hsk, sinkStack, sinkStack_writeAttrs,
                  sinkStack_writeIfTruthy]
              · simp [Render.stackWeight_cons, Render.elemWeight, hlen, hmf]; omega
              · intro hx; simp at hx
              · intro hx; simp [hmf] at hx
            · by_cases ha : Render.typeMatches type "audio" = true
              · simp only [hi, ha, if_true, hlf, Option.some.injEq] at hs
                subst hs
                refine ⟨⟨"source" :: "audio" :: sk, ?_, ?_⟩, ?_, ?_, hc⟩
                · simp [Render.containerCalls, sinkStack_append, hsk, sinkStack,
                    sinkStack_writeAttrs, sinkStack_writeIfTruthy]
                · simp [Render.stackWeight_cons, Render.elemWeight, hlen]
                  rw [Render.stackWeight_flag true false stack hnot]; omega
                · intro hx; simp at hx
                · intro _; simp [hlf]
              · by_cases hv : Render.typeMatches type "video" = true
                · simp only [hi, ha, hv, if_true, hlf, Option.some.injEq] at hs
                  subst hs
                  refine ⟨⟨"source" :: "video" :: sk, ?_, ?_⟩, ?_, ?_, hc⟩
                  · simp [Render.containerCalls, sinkStack_append, hsk, sinkStack,
                      sinkStack_writeAttrs, sinkStack_writeIfTruthy]
                  · simp [Render.stackWeight_cons, Render.elemWeight, hlen]
                    rw [Render.stackWeight_flag true false stack hnot]; omega
                  · intro hx; simp at hx
                  · intro _; simp [hlf]
                · simp only [hi, ha, hv, if_true, Option.some.injEq] at hs
                  subst hs
                  refine ⟨⟨"a" :: sk, ?_, ?_⟩, ?_, ?_, hc⟩
                  · simp [sinkStack_append, hsk, sinkStack, sinkStack_writeAttrs,
                      sinkStack_writeIfTruthy]
                  · simp [Render.stackWeight_cons, Render.elemWeight, hlen, hmf]; omega
                  · intro hx; simp at hx
                  · intro hx; simp [hmf] at hx
      · simp only [Render.onStartElementNS, hn, ht, hm, if_false, Option.some.injEq] at hs
        subst hs
        refine ⟨⟨elem :: sk, ?_, ?_⟩, ?_, h3, ?_⟩
        · simp [sinkStack_append, hsk, sinkStack, sinkStack_writeAttrs]
        · simp [Render.stackWeight_cons, Render.elemWeight, hlen, hn, ht, hm]; omega
        · intro hx
          exact h2 (fun hmem => hx (List.mem_cons_of_mem _ hmem))
        · rw [List.count_cons]; simpa [hm] using h4

/-- The invariant carried over a whole well-nested stretch of events. -/
theorem Render.run_inv (resources : String → Option Resource) (events : List Event)
    (stack : List String) (st st2 : RenderState) (k : Nat)
    (h : Render.Inv stack st k) (hw : openElems stack events = some [])
    (hm : Render.mediaFlat resources stack events = true)
    (hr : Render.run resources st events = some st2) :
    Render.Inv [] st2 (k + countTodos events) := by
  induction events generalizing stack st k with
  | nil =>
      simp only [openElems, Option.some.injEq] at hw
      simp only [Render.run, Option.some.injEq] at hr
      subst hw; subst hr
      simpa [countTodos_nil] using h
  | cons e es ih =>
      cases e with
      | startElementNS elem attrs =>
          simp only [openElems] at hw
          simp only [Render.mediaFlat, Bool.and_eq_true] at hm
          simp only [Render.run, Render.step] at hr
          cases hs : Render.onStartElementNS resources st elem attrs with
          | none => simp [hs] at hr
          | some st1 =>
              simp only [hs] at hr
              have hflat : elem = "en-media" → "en-media" ∉ stack ∧
                  (Render.resolve resources (Render.attrValue "hash" attrs)).isSome = true := by
                intro he
                have h1 := hm.1
                simp only [he, if_true, Bool.and_eq_true, decide_eq_true_eq] at h1
                exact h1
              have h1 := Render.inv_start resources stack st st1 k elem attrs h hflat hs
              have h2 := ih (elem :: stack) st1 _ h1 hw hm.2 hr
              rw [countTodos_cons]
              have hk : (k + if elem = "en-todo" then 1 else 0) + countTodos es =
                  k + ((if isTodoStart (Event.startElementNS elem attrs) = true then 1 else 0) +
                    countTodos es) := by
                by_cases he : elem = "en-todo"
                · simp only [isTodoStart, he, beq_self_eq_true, if_true]; omega
                · simp [isTodoStart, he]
              rw [← hk]
              exact h2
      | endElementNS elem =>
          cases stack with
          | nil => simp [openElems] at hw
          | cons top rest =>
              simp only [openElems] at hw
              by_cases ht : elem = top
              · subst ht
                simp only [if_true] at hw
                simp only [Render.mediaFlat, List.tail_cons] at hm
                simp only [Render.run, Render.step] at hr
                have h1 := Render.inv_end rest st k elem h
                have h2 := ih rest _ k h1 hw hm hr
                rw [countTodos_cons]
                simpa [isTodoStart] using h2
              · simp [ht] at hw
      | characters chars =>
          simp only [openElems] at hw
          simp only [Render.mediaFlat] at hm
          simp only [Render.run, Render.step] at hr
          have h1 := Render.inv_characters stack st k chars h
          have h2 := ih stack _ k h1 hw hm hr
          rw [countTodos_cons]
          simpa [isTodoStart] using h2

/-- What the handlers do to the writer's stack, for a well-nested stream whose
`en-media` elements all resolve in the resource table and do not lie inside
one another, and a call that does not fail: the writer never gets a close
while its stack is empty, and after the last event its stack holds as many
elements as the stream has `en-todo` start events; without an `en-todo` the
stack ends empty. -/
theorem render_sink_balance (events : List Event) (resources : String → Option Resource)
    (calls : List SinkCall) (hw : wellNested events = true)
    (hm : Render.mediaFlat resources [] events = true)
    (hr : HTMLOfENML events resources = some calls) :
    (∃ sk, sinkStack [] calls = some sk ∧ sk.length = countTodos events) ∧
    (countTodos events = 0 → sinkStack [] calls = some []) := by
  simp only [wellNested, beq_iff_eq] at hw
  unfold HTMLOfENML at hr
  cases hrun : Render.run resources Render.init events with
  | none => simp [hrun] at hr
  | some st2 =>
      simp only [hrun, Option.map_some', Option.some.injEq] at hr
      subst hr
      have h0 : Render.Inv [] Render.init 0 :=
        ⟨⟨[], by simp [Render.init, sinkStack], by simp [Render.stackWeight]⟩,
          fun _ => ⟨rfl, rfl⟩, fun _ => rfl, by simp⟩
      obtain ⟨⟨sk, hsk, hlen⟩, _, _, _⟩ :=
        Render.run_inv resources events [] Render.init st2 0 h0 hw hm hrun
      simp only [Render.stackWeight, List.map_nil, List.sum_nil, zero_add] at hlen
      refine ⟨⟨sk, hsk, hlen⟩, fun hz => ?_⟩
      rw [hz] at hlen
      rw [hsk, List.length_eq_zero.1 hlen]

/-- The theorem `render_sink_balance` at a note with a paragraph, a checklist
item and a resolved image: one element, the checkbox, stays open. -/
theorem render_sink_balance_witness :
    wellNested [Event.startElementNS "en-note" [], Event.startElementNS "div" [],
        Event.startElementNS "en-todo" [], Event.endElementNS "en-todo",
        Event.characters "milk",
        Event.startElementNS "en-media" [("hash", "h"), ("type", "image/png")],
        Event.endElementNS "en-media", Event.endElementNS "div",
        Event.endElementNS "en-note"] = true ∧
    ∃ sk, sinkStack []
        [SinkCall.startElement "html", SinkCall.startElement "head",
          SinkCall.startElement "meta",
          SinkCall.writeAttribute "http-equiv" (JsVal.str "Content-Type"),
          SinkCall.writeAttribute "content" (JsVal.str "text/html; charset=UTF-8"),
          SinkCall.endElement, SinkCall.endElement, SinkCall.startElement "body",
          SinkCall.writeAttribute "style" (JsVal.str Render.defaultStyle),
          SinkCall.startElement "div",
          SinkCall.startElement "input",
          SinkCall.writeAttribute "type" (JsVal.str "checkbox"),
          SinkCall.text "milk",
          SinkCall.startElement "img", SinkCall.writeAttribute "title" (JsVal.str "t"),
          SinkCall.writeAttribute "src" (JsVal.str "u"),
          SinkCall.writeAttribute "hash" (JsVal.str "h"),
          SinkCall.writeAttribute "type" (JsVal.str "image/png"),
          SinkCall.endElement, SinkCall.text "\n",
          SinkCall.endElement,
          SinkCall.endElement, SinkCall.endElement] = some sk ∧
      sk.length = 1 :=
  ⟨by decide,
    (render_sink_balance
      [Event.startElementNS "en-note" [], Event.startElementNS "div" [],
        Event.startElementNS "en-todo" [], Event.endElementNS "en-todo",
        Event.characters "milk",
        Event.startElementNS "en-media" [("hash", "h"), ("type", "image/png")],
        Event.endElementNS "en-media", Event.endElementNS "div",
        Event.endElementNS "en-note"]
      (fun hash => if hash = "h" then some (Resource.record (some "u") (some "t")) else none)
      _ (by decide) (by decide) (by decide)).1⟩

/-- Two resolved audio `en-media` elements, one inside the other, leave
`html` open: the inner end event lowers the one flag the outer end event
needs. -/
theorem render_nested_audio_leaves_html_open :
    wellNested [Event.startElementNS "en-note" [],
        Event.startElementNS "en-media" [("hash", "h"), ("type", "audio/mpeg")],
        Event.startElementNS "en-media" [("hash", "h"), ("type", "audio/mpeg")],
        Event.endElementNS "en-media", Event.endElementNS "en-media",
        Event.endElementNS "en-note"] = true ∧
    (HTMLOfENML [Event.startElementNS "en-note" [],
        Event.startElementNS "en-media" [("hash", "h"), ("type", "audio/mpeg")],
        Event.startElementNS "en-media" [("hash", "h"), ("type", "audio/mpeg")],
        Event.endElementNS "en-media", Event.endElementNS "en-media",
        Event.endElementNS "en-note"]
      (fun hash => if hash = "h" then some (Resource.record (some "u") (some "t"))
        else none)).bind (sinkStack []) = some ["html"] :=
  ⟨by decide, by decide⟩

/-- C10, as the code runs it. The note `<en-note><en-todo/></en-note>` is
well-nested and rooted at `en-note`, and the call does not fail.  The start
of the `en-todo` opens `input` and its end event closes nothing, so the two
closes of the `en-note` end event, which the source marks `//body` and
`//html`, end `input` and `body`: after the last event `html` is still open,
and there is one more open than there are closes. -/
theorem render_sink_not_balanced :
    wellNested [Event.startElementNS "en-note" [], Event.startElementNS "en-todo" [],
        Event.endElementNS "en-todo", Event.endElementNS "en-note"] = true ∧
    HTMLOfENML [Event.startElementNS "en-note" [], Event.startElementNS "en-todo" [],
        Event.endElementNS "en-todo", Event.endElementNS "en-note"] (fun _ => none) =
      some [SinkCall.startElement "html", SinkCall.startElement "head",
        SinkCall.startElement "meta",
        SinkCall.writeAttribute "http-equiv" (JsVal.str "Content-Type"),
        SinkCall.writeAttribute "content" (JsVal.str "text/html; charset=UTF-8"),
        SinkCall.endElement, SinkCall.endElement, SinkCall.startElement "body",
        SinkCall.writeAttribute "style" (JsVal.str Render.defaultStyle),
        SinkCall.startElement "input",
        SinkCall.writeAttribute "type" (JsVal.str "checkbox"),
        SinkCall.endElement, SinkCall.endElement] ∧
    (HTMLOfENML [Event.startElementNS "en-note" [], Event.startElementNS "en-todo" [],
        Event.endElementNS "en-todo", Event.endElementNS "en-note"]
      (fun _ => none)).bind (sinkStack []) = some ["html"] :=
  ⟨by decide, by decide, by decide⟩

/-! ### The `en-media` branches of the start handler -/

/-- The `en-media` start handler on an unresolved resource: it returns at once. -/
theorem Render.onStart_media_unresolved (resources : String → Option Resource)
    (st : RenderState) (attrs : List Attr)
    (hres : Render.resolve resources (Render.attrValue "hash" attrs) = none) :
    Render.onStartElementNS resources st "en-media" attrs = some st := by
  simp [Render.onStartElementNS, Render.startMedia, hres]

/-- The `en-media` start handler on a resolved resource without `type`:
`type.match` is called on `null`. -/
theorem Render.onStart_media_no_type (resources : String → Option Resource)
    (st : RenderState) (attrs : List Attr) (r : Resource)
    (hres : Render.resolve resources (Render.attrValue "hash" attrs) = some r)
    (hty : Render.attrValue "type" attrs = none) :
    Render.onStartElementNS resources st "en-media" attrs = none := by
  simp [Render.onStartElementNS, Render.startMedia, hres, hty]

/-- The image branch. -/
theorem Render.onStart_media_image (resources : String → Option Resource)
    (st : RenderState) (attrs : List Attr) (r : Resource) (type : String)
    (hres : Render.resolve resources (Render.attrValue "hash" attrs) = some r)
    (hty : Render.attrValue "type" attrs = some type)
    (hi : Render.typeMatches type "image" = true) :
    Render.onStartElementNS resources st "en-media" attrs =
      some { st with
        writer := (st.writer ++
          [SinkCall.startElement "img",
           SinkCall.writeAttribute "title" (JsVal.str (Render.resourceTitle r))] ++
          (if st.linkTagStarted then
            [SinkCall.writeAttribute "href" (Render.resourceUrl r),
             SinkCall.writeAttribute "class" (JsVal.str "en-res-link")]
           else [SinkCall.writeAttribute "src" (Render.resourceUrl r)]) ++
          Render.writeIfTruthy "width" (Render.attrValue "width" attrs) ++
          Render.writeIfTruthy "height" (Render.attrValue "height" attrs) ++
          writeAttrs attrs) } := by
  cases hl : st.linkTagStarted <;>
    simp [Render.onStartElementNS, Render.startMedia, hres, hty, hi, hl]

/-- The audio and video branches: `tag` is `audio` when the type contains
`audio`, and `video` when it contains `video` and not `audio`. -/
theorem Render.onStart_media_container (resources : String → Option Resource)
    (st : RenderState) (attrs : List Attr) (r : Resource) (type tag : String)
    (hres : Render.resolve resources (Render.attrValue "hash" attrs) = some r)
    (hty : Render.attrValue "type" attrs = some type)
    (hi : Render.typeMatches type "image" = false)
    (ht : (Render.typeMatches type "audio" = true ∧ tag = "audio") ∨
      (Render.typeMatches type "audio" = false ∧ Render.typeMatches type "video" = true ∧
        tag = "video")) :
    Render.onStartElementNS resources st "en-media" attrs =
      some { st with
        mediaTagStarted := true,
        writer := (st.writer ++
          Render.containerCalls tag (Render.resourceUrl r) (Render.resourceTitle r) ++
          (if st.linkTagStarted then
            [SinkCall.writeAttribute "href" (Render.resourceUrl r),
             SinkCall.writeAttribute "class" (JsVal.str "en-res-link")]
           else [SinkCall.writeAttribute "src" (Render.resourceUrl r)]) ++
          Render.writeIfTruthy "width" (Render.attrValue "width" attrs) ++
          Render.writeIfTruthy "height" (Render.attrValue "height" attrs) ++
          writeAttrs attrs) } := by
  rcases ht with ⟨ha, rfl⟩ | ⟨ha, hv, rfl⟩
  · cases hl : st.linkTagStarted <;>
      simp [Render.onStartElementNS, Render.startMedia, hres, hty, hi, ha, hl]
  · cases hl : st.linkTagStarted <;>
      simp [Render.onStartElementNS, Render.startMedia, hres, hty, hi, ha, hv, hl]

/-- The generic-attachment branch. -/
theorem Render.onStart_media_link (resources : String → Option Resource)
    (st : RenderState) (attrs : List Attr) (r : Resource) (type : String)
    (hres : Render.resolve resources (Render.attrValue "hash" attrs) = some r)
    (hty : Render.attrValue "type" attrs = some type)
    (hi : Render.typeMatches type "image" = false)
    (ha : Render.typeMatches type "audio" = false)
    (hv : Render.typeMatches type "video" = false) :
    Render.onStartElementNS resources st "en-media" attrs =
      some { st with
        linkTagStarted := true,
        linkTitle := some (Render.resourceTitle r),
        writer := (st.writer ++
          [SinkCall.startElement "a",
           SinkCall.writeAttribute "href" (Render.resourceUrl r),
           SinkCall.writeAttribute "class" (JsVal.str "en-res-link")] ++
          Render.writeIfTruthy "width" (Render.attrValue "width" attrs) ++
          Render.writeIfTruthy "height" (Render.attrValue "height" attrs) ++
          writeAttrs attrs) } := by
  simp [Render.onStartElementNS, Render.startMedia, hres, hty, hi, ha, hv]

/-- Events that neither start nor end an `en-media` never make the call fail
and leave the two flags and `linkTitle` as they are. -/
theorem Render.run_plain (resources : String → Option Resource) (inner : List Event)
    (st : RenderState) (h : ∀ e ∈ inner, Render.isMediaEvent e = false) :
    ∃ st2, Render.run resources st inner = some st2 ∧
      st2.mediaTagStarted = st.mediaTagStarted ∧ st2.linkTagStarted = st.linkTagStarted ∧
      st2.linkTitle = st.linkTitle := by
  induction inner generalizing st with
  | nil => exact ⟨st, rfl, rfl, rfl, rfl⟩
  | cons e es ih =>
      have he := h e (List.mem_cons_self _ _)
      have hes : ∀ e2 ∈ es, Render.isMediaEvent e2 = false :=
        fun e2 h2 => h e2 (List.mem_cons_of_mem e h2)
      have key : ∃ st1, Render.step resources st e = some st1 ∧
          st1.mediaTagStarted = st.mediaTagStarted ∧
          st1.linkTagStarted = st.linkTagStarted ∧ st1.linkTitle = st.linkTitle := by
        cases e with
        | startElementNS elem attrs =>
            have hm : ¬ elem = "en-media" := by simpa [Render.isMediaEvent] using he
            by_cases hn : elem = "en-note"
            · simp [Render.step, Render.onStartElementNS, hn]
            · by_cases ht : elem = "en-todo"
              · simp [Render.step, Render.onStartElementNS, ht]
              · simp [Render.step, Render.onStartElementNS, hn, ht, hm]
        | endElementNS elem =>
            have hm : ¬ elem = "en-media" := by simpa [Render.isMediaEvent] using he
            by_cases hn : elem = "en-note"
            · simp [Render.step, Render.onEndElementNS, hn]
            · by_cases ht : elem = "en-todo"
              · simp [Render.step, Render.onEndElementNS, ht]
              · simp [Render.step, Render.onEndElementNS, hn, ht, hm]
        | characters chars => simp [Render.step, Render.onCharacters]
      obtain ⟨st1, hs, h1, h2, h3⟩ := key
      obtain ⟨st2, hr, k1, k2, k3⟩ := ih st1 hes
      exact ⟨st2, by simp [Render.run, hs, hr], k1.trans h1, k2.trans h2, k3.trans h3⟩

/-- C11, as the code runs it. For an `en-media` whose hash does not resolve
the start handler returns at once and makes no writer call, as the claim
says.  The end handler does not know of it: with both flags down it calls
`endElement` and then writes a newline text.  In
`<en-note><en-media hash="h" type="image/png"/></en-note>` with an empty
table that close ends `body`, and the second close of the `en-note` end event
comes with no element open. -/
theorem render_unresolved_media_end_closes :
    (∀ (resources : String → Option Resource) (st : RenderState) (attrs : List Attr),
      Render.resolve resources (Render.attrValue "hash" attrs) = none →
      Render.onStartElementNS resources st "en-media" attrs = some st) ∧
    (∀ st : RenderState, st.mediaTagStarted = false → st.linkTagStarted = false →
      (Render.onEndElementNS st "en-media").writer =
        st.writer ++ [SinkCall.endElement, SinkCall.text "\n"]) ∧
    HTMLOfENML [Event.startElementNS "en-note" [],
        Event.startElementNS "en-media" [("hash", "h"), ("type", "image/png")],
        Event.endElementNS "en-media", Event.endElementNS "en-note"] (fun _ => none) =
      some [SinkCall.startElement "html", SinkCall.startElement "head",
        SinkCall.startElement "meta",
        SinkCall.writeAttribute "http-equiv" (JsVal.str "Content-Type"),
        SinkCall.writeAttribute "content" (JsVal.str "text/html; charset=UTF-8"),
        SinkCall.endElement, SinkCall.endElement, SinkCall.startElement "body",
        SinkCall.writeAttribute "style" (JsVal.str Render.defaultStyle),
        SinkCall.endElement, SinkCall.text "\n",
        SinkCall.endElement, SinkCall.endElement] ∧
    (HTMLOfENML [Event.startElementNS "en-note" [],
        Event.startElementNS "en-media" [("hash", "h"), ("type", "image/png")],
        Event.endElementNS "en-media", Event.endElementNS "en-note"]
      (fun _ => none)).bind (sinkStack []) = none := by
  refine ⟨fun resources st attrs h => Render.onStart_media_unresolved resources st attrs h,
    ?_, by decide, by decide⟩
  intro st hm hl
  simp [Render.onEndElementNS, hm, hl]

/-- C12, as the code runs it. For an `en-media` without a `type` attribute
whose hash resolves, the start handler calls `type.match` on `null` and
throws: the call fails, and no `a` element is written.  So it is for
`<en-note><en-media hash="h"/></en-note>` with the table
`{h: {url: "u", title: "t"}}`. -/
theorem render_absent_type_fails :
    (∀ (resources : String → Option Resource) (st : RenderState) (attrs : List Attr)
        (r : Resource),
      Render.resolve resources (Render.attrValue "hash" attrs) = some r →
      Render.attrValue "type" attrs = none →
      Render.onStartElementNS resources st "en-media" attrs = none) ∧
    HTMLOfENML [Event.startElementNS "en-note" [],
        Event.startElementNS "en-media" [("hash", "h")],
        Event.endElementNS "en-media", Event.endElementNS "en-note"]
      (fun hash => if hash = "h" then some (Resource.record (some "u") (some "t"))
        else none) = none :=
  ⟨fun resources st attrs r h1 h2 => Render.onStart_media_no_type resources st attrs r h1 h2,
    by decide⟩

/-- C19. Render, checklist item: for every `en-todo` start event the
writer calls are open `input`, `type="checkbox"`, then the element's
attributes in order; when the element carries `checked="true"` that attribute
is among the calls written on the `input`; the `en-todo` end event makes no
writer call and changes nothing. -/
theorem render_checklist_item (resources : String → Option Resource) (st : RenderState)
    (attrs : List Attr) :
    Render.onStartElementNS resources st "en-todo" attrs =
      some { mediaTagStarted := st.mediaTagStarted, linkTagStarted := st.linkTagStarted,
             linkTitle := st.linkTitle,
             writer := st.writer ++
               [SinkCall.startElement "input",
                SinkCall.writeAttribute "type" (JsVal.str "checkbox")] ++ writeAttrs attrs } ∧
    ((("checked", "true") : Attr) ∈ attrs →
      SinkCall.writeAttribute "checked" (JsVal.str "true") ∈ writeAttrs attrs) ∧
    Render.onEndElementNS st "en-todo" = st := by
  refine ⟨by simp [Render.onStartElementNS], ?_, by simp [Render.onEndElementNS]⟩
  intro h
  simp only [writeAttrs, List.mem_map]
  exact ⟨("checked", "true"), h, rfl⟩

/-- The theorem `render_checklist_item` at a checked `en-todo`. -/
theorem render_checklist_item_witness :
    SinkCall.writeAttribute "checked" (JsVal.str "true") ∈
      writeAttrs [("checked", "true")] :=
  (render_checklist_item (fun _ => none) Render.init [("checked", "true")]).2.1 (by decide)

/-- The end handler of `en-media` with both flags down: one close, then a
newline text. -/
theorem Render.onEnd_media_plain (st : RenderState) (hm : st.mediaTagStarted = false)
    (hl : st.linkTagStarted = false) :
    Render.onEndElementNS st "en-media" =
      { st with writer := st.writer ++ [SinkCall.endElement, SinkCall.text "\n"] } := by
  simp [Render.onEndElementNS, hm, hl]

/-- C13 as stated fails. In
`<en-note><en-media hash="h" type="application/pdf"><en-media hash="h" type="image/png"/></en-media></en-note>`
with the table `{h: {url: "u", title: "t"}}` the inner element is an image
whose hash resolves, and the calls of its start event are open `img`,
`title="t"`, then `href="u"` and `class="en-res-link"`: the outer element
has set `linkTagStarted`, and no `src` is written. -/
theorem render_image_inside_link_has_no_src :
    HTMLOfENML [Event.startElementNS "en-note" [],
        Event.startElementNS "en-media" [("hash", "h"), ("type", "application/pdf")],
        Event.startElementNS "en-media" [("hash", "h"), ("type", "image/png")],
        Event.endElementNS "en-media", Event.endElementNS "en-media",
        Event.endElementNS "en-note"]
      (fun hash => if hash = "h" then some (Resource.record (some "u") (some "t"))
        else none) =
      some [SinkCall.startElement "html", SinkCall.startElement "head",
        SinkCall.startElement "meta",
        SinkCall.writeAttribute "http-equiv" (JsVal.str "Content-Type"),
        SinkCall.writeAttribute "content" (JsVal.str "text/html; charset=UTF-8"),
        SinkCall.endElement, SinkCall.endElement, SinkCall.startElement "body",
        SinkCall.writeAttribute "style" (JsVal.str Render.defaultStyle),
        SinkCall.startElement "a",
        SinkCall.writeAttribute "href" (JsVal.str "u"),
        SinkCall.writeAttribute "class" (JsVal.str "en-res-link"),
        SinkCall.writeAttribute "hash" (JsVal.str "h"),
        SinkCall.writeAttribute "type" (JsVal.str "application/pdf"),
        SinkCall.startElement "img",
        SinkCall.writeAttribute "title" (JsVal.str "t"),
        SinkCall.writeAttribute "href" (JsVal.str "u"),
        SinkCall.writeAttribute "class" (JsVal.str "en-res-link"),
        SinkCall.writeAttribute "hash" (JsVal.str "h"),
        SinkCall.writeAttribute "type" (JsVal.str "image/png"),
        SinkCall.text "t", SinkCall.endElement, SinkCall.text "\n",
        SinkCall.endElement, SinkCall.text "\n",
        SinkCall.endElement, SinkCall.endElement] := by
  decide

/-- C13, as the code has it. For an `en-media` start event handled while
`linkTagStarted` is down, whose type contains `image` and whose hash resolves
to a record `{url: u, title: t}` with `u` and `t` not empty, the writer calls
begin with open `img`, `title = t`, `src = u` (then `width` and `height` when
given, then the element's attributes), and `img` is the innermost open writer
element.  When `mediaTagStarted` is down as well and the content of the
element holds no `en-media` event, the end event makes one close and writes a
newline; for an element without content that close ends the `img`.  With the
table `{h: {url: "u", title: "t"}}` the output holds an `img` with
`title="t"` and `src="u"`. -/
theorem render_image_media (resources : String → Option Resource) (st : RenderState)
    (attrs : List Attr) (type u t : String) (inner : List Event)
    (hl : st.linkTagStarted = false)
    (hty : Render.attrValue "type" attrs = some type)
    (hi : Render.typeMatches type "image" = true)
    (hres : Render.resolve resources (Render.attrValue "hash" attrs) =
      some (Resource.record (some u) (some t)))
    (hu : u ≠ "") (ht : t ≠ "")
    (hin : ∀ e ∈ inner, Render.isMediaEvent e = false) :
    (∃ st1 st2,
      Render.onStartElementNS resources st "en-media" attrs = some st1 ∧
      st1.writer = st.writer ++
        [SinkCall.startElement "img",
         SinkCall.writeAttribute "title" (JsVal.str t),
         SinkCall.writeAttribute "src" (JsVal.str u)] ++
        (Render.writeIfTruthy "width" (Render.attrValue "width" attrs) ++
          Render.writeIfTruthy "height" (Render.attrValue "height" attrs) ++
          writeAttrs attrs) ∧
      (∀ sk, sinkStack [] st.writer = some sk → sinkStack [] st1.writer = some ("img" :: sk)) ∧
      Render.run resources st1 inner = some st2 ∧
      (st.mediaTagStarted = false →
        (Render.onEndElementNS st2 "en-media").writer =
          st2.writer ++ [SinkCall.endElement, SinkCall.text "\n"] ∧
        (inner = [] → ∀ sk, sinkStack [] st.writer = some sk →
          sinkStack [] (Render.onEndElementNS st2 "en-media").writer = some sk))) ∧
    HTMLOfENML [Event.startElementNS "en-note" [],
        Event.startElementNS "en-media" [("hash", "h"), ("type", "image/png")],
        Event.endElementNS "en-media", Event.endElementNS "en-note"]
      (fun hash => if hash = "h" then some (Resource.record (some "u") (some "t"))
        else none) =
      some [SinkCall.startElement "html", SinkCall.startElement "head",
        SinkCall.startElement "meta",
        SinkCall.writeAttribute "http-equiv" (JsVal.str "Content-Type"),
        SinkCall.writeAttribute "content" (JsVal.str "text/html; charset=UTF-8"),
        SinkCall.endElement, SinkCall.endElement, SinkCall.startElement "body",
        SinkCall.writeAttribute "style" (JsVal.str Render.defaultStyle),
        SinkCall.startElement "img",
        SinkCall.writeAttribute "title" (JsVal.str "t"),
        SinkCall.writeAttribute "src" (JsVal.str "u"),
        SinkCall.writeAttribute "hash" (JsVal.str "h"),
        SinkCall.writeAttribute "type" (JsVal.str "image/png"),
        SinkCall.endElement, SinkCall.text "\n",
        SinkCall.endElement, SinkCall.endElement] := by
  refine ⟨?_, by decide⟩
  have hs := Render.onStart_media_image resources st attrs _ type hres hty hi
  simp only [hl, Render.resourceTitle, Render.resourceUrl, hu, ht, if_false] at hs
  obtain ⟨st2, hr, k1, k2, _⟩ := Render.run_plain resources inner _ hin
  refine ⟨_, st2, hs, by simp, ?_, hr, ?_⟩
  · intro sk hsk
    simp [sinkStack_append, hsk, sinkStack, sinkStack_writeAttrs, sinkStack_writeIfTruthy]
  · intro hm
    have e1 : st2.mediaTagStarted = false := by rw [k1]; exact hm
    have e2 : st2.linkTagStarted = false := by rw [k2]
    rw [Render.onEnd_media_plain st2 e1 e2]
    refine ⟨rfl, ?_⟩
    intro hnil sk hsk
    subst hnil
    simp only [Render.run, Option.some.injEq] at hr
    subst hr
    simp [sinkStack_append, hsk, sinkStack, sinkStack_writeAttrs, sinkStack_writeIfTruthy]

/-- The theorem `render_image_media` at an image with a width, in the state
the handlers start in. -/
theorem render_image_media_witness :
    ∃ st1 st2,
      Render.onStartElementNS
        (fun hash => if hash = "h" then some (Resource.record (some "u") (some "t")) else none)
        Render.init "en-media" [("hash", "h"), ("type", "image/png"), ("width", "10")] =
          some st1 ∧
      st1.writer = Render.init.writer ++
        [SinkCall.startElement "img",
         SinkCall.writeAttribute "title" (JsVal.str "t"),
         SinkCall.writeAttribute "src" (JsVal.str "u")] ++
        (Render.writeIfTruthy "width"
            (Render.attrValue "width" [("hash", "h"), ("type", "image/png"), ("width", "10")]) ++
          Render.writeIfTruthy "height"
            (Render.attrValue "height" [("hash", "h"), ("type", "image/png"), ("width", "10")]) ++
          writeAttrs [("hash", "h"), ("type", "image/png"), ("width", "10")]) ∧
      (∀ sk, sinkStack [] Render.init.writer = some sk →
        sinkStack [] st1.writer = some ("img" :: sk)) ∧
      Render.run
        (fun hash => if hash = "h" then some (Resource.record (some "u") (some "t")) else none)
        st1 [] = some st2 ∧
      (Render.init.mediaTagStarted = false →
        (Render.onEndElementNS st2 "en-media").writer =
          st2.writer ++ [SinkCall.endElement, SinkCall.text "\n"] ∧
        ([] = ([] : List Event) → ∀ sk, sinkStack [] Render.init.writer = some sk →
          sinkStack [] (Render.onEndElementNS st2 "en-media").writer = some sk)) :=
  (render_image_media
    (fun hash => if hash = "h" then some (Resource.record (some "u") (some "t")) else none)
    Render.init [("hash", "h"), ("type", "image/png"), ("width", "10")] "image/png" "u" "t" []
    rfl (by decide) (by decide) (by decide) (by decide) (by decide)
    (by intro e he; simp at he)).1

theorem text_not_mem_writeAttrs (s : String) (attrs : List Attr) :
    SinkCall.text s ∉ writeAttrs attrs := by
  simp [writeAttrs]

theorem text_not_mem_writeIfTruthy (s key : String) (v : Option String) :
    SinkCall.text s ∉ Render.writeIfTruthy key v := by
  cases v with
  | none => simp [Render.writeIfTruthy]
  | some x => by_cases hx : x = "" <;> simp [Render.writeIfTruthy, hx]

/-- The end handler of `en-media` with `linkTagStarted` up and
`mediaTagStarted` down: the pending title, one close, a newline. -/
theorem Render.onEnd_media_link (st : RenderState) (title : String)
    (hm : st.mediaTagStarted = false) (hl : st.linkTagStarted = true)
    (ht : st.linkTitle = some title) :
    Render.onEndElementNS st "en-media" =
      { st with
        linkTagStarted := false,
        writer := (st.writer ++
          [SinkCall.text title, SinkCall.endElement, SinkCall.text "\n"]) } := by
  simp [Render.onEndElementNS, hm, hl, ht]

/-- The end handler of `en-media` with `mediaTagStarted` up: two closes, a
`br`, a newline, and the flag goes down. -/
theorem Render.onEnd_media_container (st : RenderState) (hm : st.mediaTagStarted = true) :
    Render.onEndElementNS st "en-media" =
      { st with
        mediaTagStarted := false,
        writer := (st.writer ++
          [SinkCall.endElement, SinkCall.endElement, SinkCall.writeElement "br" "",
           SinkCall.text "\n"]) } := by
  simp [Render.onEndElementNS, hm]

/-- C14 as stated fails. In
`<en-note><en-media hash="h" type="audio/mpeg"><en-media hash="h" type="unknown/x"/></en-media></en-note>`
with the table `{h: {url: "u", title: "t"}}` the inner element is a generic
attachment whose hash resolves.  Its end event finds `mediaTagStarted` set by
the outer element and makes two closes and a `br`; it writes no title. -/
theorem render_attachment_inside_audio_end :
    (Render.run
        (fun hash => if hash = "h" then some (Resource.record (some "u") (some "t")) else none)
        Render.init
        [Event.startElementNS "en-note" [],
          Event.startElementNS "en-media" [("hash", "h"), ("type", "audio/mpeg")],
          Event.startElementNS "en-media" [("hash", "h"), ("type", "unknown/x")]]).map
      (fun st => (Render.onEndElementNS st "en-media").writer.drop st.writer.length) =
      some [SinkCall.endElement, SinkCall.endElement, SinkCall.writeElement "br" "",
        SinkCall.text "\n"] := by
  decide

/-- C14, as the code has it. For an `en-media` element handled while
`mediaTagStarted` is down, whose hash resolves and whose type contains none
of `image`, `audio`, `video`, the start event opens an `a` element and writes
`href` with the resolved URL and `class="en-res-link"` (then `width` and
`height` when given, then the element's attributes) and no text; when the
content of the element holds no `en-media` event, the end event writes the
resolved title as one text, closes once and writes a newline, so the title is
written by exactly one call, at the end; for an element without content that
close ends the `a`.  For a record with a `url` and a `title` that are not
empty the resolved URL and title are these. -/
theorem render_generic_attachment (resources : String → Option Resource) (st : RenderState)
    (attrs : List Attr) (type : String) (r : Resource) (inner : List Event)
    (hm : st.mediaTagStarted = false)
    (hty : Render.attrValue "type" attrs = some type)
    (hi : Render.typeMatches type "image" = false)
    (ha : Render.typeMatches type "audio" = false)
    (hv : Render.typeMatches type "video" = false)
    (hres : Render.resolve resources (Render.attrValue "hash" attrs) = some r)
    (hin : ∀ e ∈ inner, Render.isMediaEvent e = false) :
    (∃ st1 st2,
      Render.onStartElementNS resources st "en-media" attrs = some st1 ∧
      st1.writer = st.writer ++
        ([SinkCall.startElement "a",
          SinkCall.writeAttribute "href" (Render.resourceUrl r),
          SinkCall.writeAttribute "class" (JsVal.str "en-res-link")] ++
         (Render.writeIfTruthy "width" (Render.attrValue "width" attrs) ++
          Render.writeIfTruthy "height" (Render.attrValue "height" attrs) ++
          writeAttrs attrs)) ∧
      (∀ s, SinkCall.text s ∉
        [SinkCall.startElement "a",
          SinkCall.writeAttribute "href" (Render.resourceUrl r),
          SinkCall.writeAttribute "class" (JsVal.str "en-res-link")] ++
         (Render.writeIfTruthy "width" (Render.attrValue "width" attrs) ++
          Render.writeIfTruthy "height" (Render.attrValue "height" attrs) ++
          writeAttrs attrs)) ∧
      Render.run resources st1 inner = some st2 ∧
      (Render.onEndElementNS st2 "en-media").writer =
        st2.writer ++
          [SinkCall.text (Render.resourceTitle r), SinkCall.endElement, SinkCall.text "\n"] ∧
      (inner = [] → ∀ sk, sinkStack [] st.writer = some sk →
        sinkStack [] st1.writer = some ("a" :: sk) ∧
        sinkStack [] (Render.onEndElementNS st2 "en-media").writer = some sk)) ∧
    (∀ u t : String, u ≠ "" → t ≠ "" →
      Render.resourceUrl (Resource.record (some u) (some t)) = JsVal.str u ∧
      Render.resourceTitle (Resource.record (some u) (some t)) = t) := by
  constructor
  · have hs := Render.onStart_media_link resources st attrs r type hres hty hi ha hv
    obtain ⟨st2, hr, k1, k2, k3⟩ := Render.run_plain resources inner _ hin
    refine ⟨_, st2, hs, by simp, ?_, hr, ?_, ?_⟩
    · intro s
      simp [text_not_mem_writeAttrs, text_not_mem_writeIfTruthy]
    · have e1 : st2.mediaTagStarted = false := by rw [k1]; exact hm
      have e2 : st2.linkTagStarted = true := by rw [k2]
      have e3 : st2.linkTitle = some (Render.resourceTitle r) := by rw [k3]
      rw [Render.onEnd_media_link st2 _ e1 e2 e3]
    · intro hnil sk hsk
      subst hnil
      simp only [Render.run, Option.some.injEq] at hr
      subst hr
      constructor
      · simp [sinkStack_append, hsk, sinkStack, sinkStack_writeAttrs, sinkStack_writeIfTruthy]
      · simp [Render.onEndElementNS, hm, sinkStack_append, hsk, sinkStack,
          sinkStack_writeAttrs, sinkStack_writeIfTruthy]
  · intro u t hu ht
    simp [Render.resourceUrl, Render.resourceTitle, hu, ht]

/-- The theorem `render_generic_attachment` at an attachment of type
`unknown/x` in the state the handlers start in. -/
theorem render_generic_attachment_witness :
    (Render.run
        (fun hash => if hash = "h" then some (Resource.record (some "u") (some "t")) else none)
        Render.init
        [Event.startElementNS "en-media" [("hash", "h"), ("type", "unknown/x")],
          Event.endElementNS "en-media"]).map (fun st => st.writer) =
      some [SinkCall.startElement "a",
        SinkCall.writeAttribute "href" (JsVal.str "u"),
        SinkCall.writeAttribute "class" (JsVal.str "en-res-link"),
        SinkCall.writeAttribute "hash" (JsVal.str "h"),
        SinkCall.writeAttribute "type" (JsVal.str "unknown/x"),
        SinkCall.text "t", SinkCall.endElement, SinkCall.text "\n"] ∧
    ∃ st1 st2,
      Render.onStartElementNS
        (fun hash => if hash = "h" then some (Resource.record (some "u") (some "t")) else none)
        Render.init "en-media" [("hash", "h"), ("type", "unknown/x")] = some st1 ∧
      Render.run
        (fun hash => if hash = "h" then some (Resource.record (some "u") (some "t")) else none)
        st1 [] = some st2 ∧
      (Render.onEndElementNS st2 "en-media").writer =
        st2.writer ++ [SinkCall.text "t", SinkCall.endElement, SinkCall.text "\n"] := by
  refine ⟨by decide, ?_⟩
  obtain ⟨st1, st2, h1, _, _, h4, h5, _⟩ := (render_generic_attachment
    (fun hash => if hash = "h" then some (Resource.record (some "u") (some "t")) else none)
    Render.init [("hash", "h"), ("type", "unknown/x")] "unknown/x"
    (Resource.record (some "u") (some "t")) []
    rfl (by decide) (by decide) (by decide) (by decide) (by decide)
    (by intro e he; simp at he)).1
  exact ⟨st1, st2, h1, h4, h5⟩

/-- C15 as stated fails. The type `video/x-audio` contains `video` and not
`image`, and the hash resolves; the start handler tests `audio` before
`video`, so the container opened in
`<en-note><en-media hash="h" type="video/x-audio"/></en-note>` is `audio`,
with the audio fallback text, and no `video` element is written. -/
theorem render_video_type_with_audio_opens_audio :
    Render.typeMatches "video/x-audio" "video" = true ∧
    Render.typeMatches "video/x-audio" "image" = false ∧
    HTMLOfENML [Event.startElementNS "en-note" [],
        Event.startElementNS "en-media" [("hash", "h"), ("type", "video/x-audio")],
        Event.endElementNS "en-media", Event.endElementNS "en-note"]
      (fun hash => if hash = "h" then some (Resource.record (some "u") (some "t"))
        else none) =
      some [SinkCall.startElement "html", SinkCall.startElement "head",
        SinkCall.startElement "meta",
        SinkCall.writeAttribute "http-equiv" (JsVal.str "Content-Type"),
        SinkCall.writeAttribute "content" (JsVal.str "text/html; charset=UTF-8"),
        SinkCall.endElement, SinkCall.endElement, SinkCall.startElement "body",
        SinkCall.writeAttribute "style" (JsVal.str Render.defaultStyle),
        SinkCall.startElement "a",
        SinkCall.writeAttribute "href" (JsVal.str "u"),
        SinkCall.writeAttribute "class" (JsVal.str "en-res-link"),
        SinkCall.text "t", SinkCall.endElement,
        SinkCall.writeElement "br" "",
        SinkCall.startElement "audio",
        SinkCall.writeAttribute "controls" (JsVal.str ""),
        SinkCall.text "Your browser does not support the audio tag.",
        SinkCall.startElement "source",
        SinkCall.writeAttribute "src" (JsVal.str "u"),
        SinkCall.writeAttribute "hash" (JsVal.str "h"),
        SinkCall.writeAttribute "type" (JsVal.str "video/x-audio"),
        SinkCall.endElement, SinkCall.endElement, SinkCall.writeElement "br" "",
        SinkCall.text "\n",
        SinkCall.endElement, SinkCall.endElement] := by
  decide

/-- C15, as the code has it. For an `en-media` element handled while
`linkTagStarted` is down, whose hash resolves and whose type does not contain
`image` and contains `audio` (container `audio`), or contains `video` and not
`audio` (container `video`): the start event writes, in order, the link
`a` with `href` and `class="en-res-link"` around the title text and closed, a
`br` element, the open container with `controls` and its fallback text, the
open `source` with `src` the resolved URL (then `width` and `height` when
given, then the element's attributes); `source` and the container are
the two innermost open writer elements.  When the content holds no
`en-media` event the end event makes exactly two closes, writes a `br`
element and a newline, and lowers `mediaTagStarted`, after which an `en-media`
end event makes one close only; for an element without content the two closes
end `source` and the container. -/
theorem render_audio_video_media (resources : String → Option Resource) (st : RenderState)
    (attrs : List Attr) (type tag : String) (r : Resource) (inner : List Event)
    (hl : st.linkTagStarted = false)
    (hty : Render.attrValue "type" attrs = some type)
    (hi : Render.typeMatches type "image" = false)
    (ht : (Render.typeMatches type "audio" = true ∧ tag = "audio") ∨
      (Render.typeMatches type "audio" = false ∧ Render.typeMatches type "video" = true ∧
        tag = "video"))
    (hres : Render.resolve resources (Render.attrValue "hash" attrs) = some r)
    (hin : ∀ e ∈ inner, Render.isMediaEvent e = false) :
    ∃ st1 st2,
      Render.onStartElementNS resources st "en-media" attrs = some st1 ∧
      st1.writer = st.writer ++
        ([SinkCall.startElement "a",
          SinkCall.writeAttribute "href" (Render.resourceUrl r),
          SinkCall.writeAttribute "class" (JsVal.str "en-res-link"),
          SinkCall.text (Render.resourceTitle r),
          SinkCall.endElement,
          SinkCall.writeElement "br" "",
          SinkCall.startElement tag,
          SinkCall.writeAttribute "controls" (JsVal.str ""),
          SinkCall.text ("Your browser does not support the " ++ tag ++ " tag."),
          SinkCall.startElement "source",
          SinkCall.writeAttribute "src" (Render.resourceUrl r)] ++
         (Render.writeIfTruthy "width" (Render.attrValue "width" attrs) ++
          Render.writeIfTruthy "height" (Render.attrValue "height" attrs) ++
          writeAttrs attrs)) ∧
      (∀ sk, sinkStack [] st.writer = some sk →
        sinkStack [] st1.writer = some ("source" :: tag :: sk)) ∧
      Render.run resources st1 inner = some st2 ∧
      (Render.onEndElementNS st2 "en-media").writer =
        st2.writer ++
          [SinkCall.endElement, SinkCall.endElement, SinkCall.writeElement "br" "",
           SinkCall.text "\n"] ∧
      (Render.onEndElementNS st2 "en-media").mediaTagStarted = false ∧
      (Render.onEndElementNS (Render.onEndElementNS st2 "en-media") "en-media").writer =
        (Render.onEndElementNS st2 "en-media").writer ++
          [SinkCall.endElement, SinkCall.text "\n"] ∧
      (inner = [] → ∀ sk, sinkStack [] st.writer = some sk →
        sinkStack [] (Render.onEndElementNS st2 "en-media").writer = some sk) := by
  have hs := Render.onStart_media_container resources st attrs r type tag hres hty hi ht
  simp only [hl, Render.containerCalls, Bool.false_eq_true, if_false] at hs
  obtain ⟨st2, hr, k1, k2, _⟩ := Render.run_plain resources inner _ hin
  refine ⟨_, st2, hs, by simp, ?_, hr, ?_, ?_, ?_, ?_⟩
  · intro sk hsk
    simp [sinkStack_append, hsk, sinkStack, sinkStack_writeAttrs, sinkStack_writeIfTruthy]
  · have e1 : st2.mediaTagStarted = true := by rw [k1]
    rw [Render.onEnd_media_container st2 e1]
  · have e1 : st2.mediaTagStarted = true := by rw [k1]
    rw [Render.onEnd_media_container st2 e1]
  · have e1 : st2.mediaTagStarted = true := by rw [k1]
    have e2 : st2.linkTagStarted = false := by rw [k2]
    rw [Render.onEnd_media_plain (Render.onEndElementNS st2 "en-media")
      (by rw [Render.onEnd_media_container st2 e1])
      (by rw [Render.onEnd_media_container st2 e1]; exact e2)]
  · intro hnil sk hsk
    subst hnil
    simp only [Render.run, Option.some.injEq] at hr
    subst hr
    simp [Render.onEndElementNS, sinkStack_append, hsk, sinkStack,
      sinkStack_writeAttrs, sinkStack_writeIfTruthy]

/-- The theorem `render_audio_video_media` at a video in the state the
handlers start in: the calls of the start event followed by those of the end
event. -/
theorem render_audio_video_media_witness :
    (Render.run
        (fun hash => if hash = "h" then some (Resource.record (some "u") (some "t")) else none)
        Render.init
        [Event.startElementNS "en-media" [("hash", "h"), ("type", "video/mp4")],
          Event.endElementNS "en-media"]).map (fun st => st.writer) =
      some [SinkCall.startElement "a",
        SinkCall.writeAttribute "href" (JsVal.str "u"),
        SinkCall.writeAttribute "class" (JsVal.str "en-res-link"),
        SinkCall.text "t", SinkCall.endElement,
        SinkCall.writeElement "br" "",
        SinkCall.startElement "video",
        SinkCall.writeAttribute "controls" (JsVal.str ""),
        SinkCall.text "Your browser does not support the video tag.",
        SinkCall.startElement "source",
        SinkCall.writeAttribute "src" (JsVal.str "u"),
        SinkCall.writeAttribute "hash" (JsVal.str "h"),
        SinkCall.writeAttribute "type" (JsVal.str "video/mp4"),
        SinkCall.endElement, SinkCall.endElement, SinkCall.writeElement "br" "",
        SinkCall.text "\n"] ∧
    ∃ st1 st2,
      Render.onStartElementNS
        (fun hash => if hash = "h" then some (Resource.record (some "u") (some "t")) else none)
        Render.init "en-media" [("hash", "h"), ("type", "video/mp4")] = some st1 ∧
      Render.run
        (fun hash => if hash = "h" then some (Resource.record (some "u") (some "t")) else none)
        st1 [] = some st2 ∧
      (Render.onEndElementNS st2 "en-media").mediaTagStarted = false := by
  refine ⟨by decide, ?_⟩
  obtain ⟨st1, st2, h1, _, _, h4, _, h6, _⟩ := render_audio_video_media
    (fun hash => if hash = "h" then some (Resource.record (some "u") (some "t")) else none)
    Render.init [("hash", "h"), ("type", "video/mp4")] "video/mp4" "video"
    (Resource.record (some "u") (some "t")) []
    rfl (by decide) (by decide) (Or.inr ⟨by decide, by decide, rfl⟩) (by decide)
    (by intro e he; simp at he)
  exact ⟨st1, st2, h1, h4, h6⟩

/-- C16 as stated fails. For the resolved image
`<en-media hash="h" type="image/png" alt="x"/>` the start handler writes, after
`title` and `src`, the attributes `hash`, `type` and `alt` of the source
element on the `img`. -/
theorem render_media_attributes_copied :
    Render.onStartElementNS
        (fun hash => if hash = "h" then some (Resource.record (some "u") (some "t")) else none)
        Render.init "en-media" [("hash", "h"), ("type", "image/png"), ("alt", "x")] =
      some { mediaTagStarted := false, linkTagStarted := false, linkTitle := none,
             writer := [SinkCall.startElement "img",
               SinkCall.writeAttribute "title" (JsVal.str "t"),
               SinkCall.writeAttribute "src" (JsVal.str "u"),
               SinkCall.writeAttribute "hash" (JsVal.str "h"),
               SinkCall.writeAttribute "type" (JsVal.str "image/png"),
               SinkCall.writeAttribute "alt" (JsVal.str "x")] } := by
  decide

/-- The calls of the `en-media` start handler for a resolved resource and a
`type`: those of the branch taken, then `src` or `href` and `class`, then the
two size attributes, then the attribute loop. -/
theorem Render.onStart_media_calls (resources : String → Option Resource) (st : RenderState)
    (attrs : List Attr) (type : String) (r : Resource)
    (hty : Render.attrValue "type" attrs = some type)
    (hres : Render.resolve resources (Render.attrValue "hash" attrs) = some r) :
    ∃ st1 branch,
      Render.onStartElementNS resources st "en-media" attrs = some st1 ∧
      st1.writer = st.writer ++ branch ++
        (if st1.linkTagStarted then
          [SinkCall.writeAttribute "href" (Render.resourceUrl r),
           SinkCall.writeAttribute "class" (JsVal.str "en-res-link")]
         else [SinkCall.writeAttribute "src" (Render.resourceUrl r)]) ++
        Render.writeIfTruthy "width" (Render.attrValue "width" attrs) ++
        Render.writeIfTruthy "height" (Render.attrValue "height" attrs) ++
        writeAttrs attrs ∧
      (branch = [SinkCall.startElement "img",
          SinkCall.writeAttribute "title" (JsVal.str (Render.resourceTitle r))] ∨
        branch = Render.containerCalls "audio" (Render.resourceUrl r) (Render.resourceTitle r) ∨
        branch = Render.containerCalls "video" (Render.resourceUrl r) (Render.resourceTitle r) ∨
        branch = [SinkCall.startElement "a"]) := by
  by_cases hi : Render.typeMatches type "image" = true
  · have hs := Render.onStart_media_image resources st attrs r type hres hty hi
    exact ⟨_, _, hs, rfl, Or.inl rfl⟩
  · have hi2 : Render.typeMatches type "image" = false := by simpa using hi
    by_cases ha : Render.typeMatches type "audio" = true
    · have hs := Render.onStart_media_container resources st attrs r type "audio" hres hty hi2
        (Or.inl ⟨ha, rfl⟩)
      exact ⟨_, _, hs, rfl, Or.inr (Or.inl rfl)⟩
    · have ha2 : Render.typeMatches type "audio" = false := by simpa using ha
      by_cases hv : Render.typeMatches type "video" = true
      · have hs := Render.onStart_media_container resources st attrs r type "video" hres hty
          hi2 (Or.inr ⟨ha2, hv, rfl⟩)
        exact ⟨_, _, hs, rfl, Or.inr (Or.inr (Or.inl rfl))⟩
      · have hv2 : Render.typeMatches type "video" = false := by simpa using hv
        have hs := Render.onStart_media_link resources st attrs r type hres hty hi2 ha2 hv2
        exact ⟨_, [SinkCall.startElement "a"], hs, by simp, Or.inr (Or.inr (Or.inr rfl))⟩

/-- C16, as the code has it. For an `en-media` start event with a `type`
whose hash resolves, the calls are those of its branch (open `img` and
`title`; the link, the `br`, the container and the open `source`; or open
`a`), then `src`, or `href` and `class` when `linkTagStarted` is up (always so
for the generic attachment), then `width` and `height` when given and not
empty, and then the copies of source attributes: every attribute of the
source element other than `width` and `height`, `type` and `hash` among them,
is written there, in source order, and nothing but attributes of the source
element is written there. -/
theorem render_media_attributes (resources : String → Option Resource) (st : RenderState)
    (attrs : List Attr) (type : String) (r : Resource)
    (hty : Render.attrValue "type" attrs = some type)
    (hres : Render.resolve resources (Render.attrValue "hash" attrs) = some r) :
    ∃ st1 branch copied,
      Render.onStartElementNS resources st "en-media" attrs = some st1 ∧
      st1.writer = st.writer ++ branch ++
        (if st1.linkTagStarted then
          [SinkCall.writeAttribute "href" (Render.resourceUrl r),
           SinkCall.writeAttribute "class" (JsVal.str "en-res-link")]
         else [SinkCall.writeAttribute "src" (Render.resourceUrl r)]) ++
        Render.writeIfTruthy "width" (Render.attrValue "width" attrs) ++
        Render.writeIfTruthy "height" (Render.attrValue "height" attrs) ++
        copied ∧
      (branch = [SinkCall.startElement "img",
          SinkCall.writeAttribute "title" (JsVal.str (Render.resourceTitle r))] ∨
        branch = Render.containerCalls "audio" (Render.resourceUrl r) (Render.resourceTitle r) ∨
        branch = Render.containerCalls "video" (Render.resourceUrl r) (Render.resourceTitle r) ∨
        branch = [SinkCall.startElement "a"]) ∧
      List.Sublist
        (writeAttrs (attrs.filter (fun attr => decide (attr.1 ≠ "width" ∧ attr.1 ≠ "height"))))
        copied ∧
      (∀ attr ∈ attrs, attr.1 ≠ "width" → attr.1 ≠ "height" →
        SinkCall.writeAttribute attr.1 (JsVal.str attr.2) ∈ copied) ∧
      (∀ c ∈ copied, ∃ attr ∈ attrs, c = SinkCall.writeAttribute attr.1 (JsVal.str attr.2)) := by
  obtain ⟨st1, branch, hs, hw, hb⟩ :=
    Render.onStart_media_calls resources st attrs type r hty hres
  refine ⟨st1, branch, writeAttrs attrs, hs, hw, hb, ?_, ?_, ?_⟩
  · exact List.Sublist.map _ (List.filter_sublist _)
  · intro attr hattr _ _
    simp only [writeAttrs, List.mem_map]
    exact ⟨attr, hattr, rfl⟩
  · intro c hc
    simp only [writeAttrs, List.mem_map] at hc
    obtain ⟨attr, hattr, rfl⟩ := hc
    exact ⟨attr, hattr, rfl⟩

/-- The theorem `render_media_attributes` at an image with an `alt`
attribute: the `hash` attribute is written on the `img`. -/
theorem render_media_attributes_witness :
    ∃ st1 copied,
      Render.onStartElementNS
        (fun hash => if hash = "h" then some (Resource.record (some "u") (some "t")) else none)
        Render.init "en-media" [("hash", "h"), ("type", "image/png"), ("alt", "x")] =
          some st1 ∧
      SinkCall.writeAttribute "hash" (JsVal.str "h") ∈ copied ∧
      SinkCall.writeAttribute "alt" (JsVal.str "x") ∈ copied ∧
      ∃ front, st1.writer = front ++ copied := by
  obtain ⟨st1, branch, copied, h1, h2, _, _, h5, _⟩ := render_media_attributes
    (fun hash => if hash = "h" then some (Resource.record (some "u") (some "t")) else none)
    Render.init [("hash", "h"), ("type", "image/png"), ("alt", "x")] "image/png"
    (Resource.record (some "u") (some "t")) (by decide) (by decide)
  exact ⟨st1, copied, h1, h5 ("hash", "h") (by decide) (by decide) (by decide),
    h5 ("alt", "x") (by decide) (by decide) (by decide), _, h2⟩

/-- C17, as the code runs it. The start handler of `en-note` writes the
default style unless the first attribute is named `style`, and then copies all
attributes.  For `<en-note lang="en" style="color:red">` the `style` attribute
is second: `body` gets the default style and `style="color:red"` as well, two
`style` attributes, where the claim has no default style and one `style`. -/
theorem render_root_style_checks_first_attribute :
    (∀ (resources : String → Option Resource) (st : RenderState) (attrs : List Attr),
      Render.onStartElementNS resources st "en-note" attrs =
        some { mediaTagStarted := st.mediaTagStarted, linkTagStarted := st.linkTagStarted,
               linkTitle := st.linkTitle,
               writer := st.writer ++
                 [SinkCall.startElement "html", SinkCall.startElement "head",
                  SinkCall.startElement "meta",
                  SinkCall.writeAttribute "http-equiv" (JsVal.str "Content-Type"),
                  SinkCall.writeAttribute "content" (JsVal.str "text/html; charset=UTF-8"),
                  SinkCall.endElement, SinkCall.endElement, SinkCall.startElement "body"] ++
                 (if Render.firstIsStyle attrs then []
                  else [SinkCall.writeAttribute "style" (JsVal.str Render.defaultStyle)]) ++
                 writeAttrs attrs }) ∧
    Render.firstIsStyle [("lang", "en"), ("style", "color:red")] = false ∧
    HTMLOfENML [Event.startElementNS "en-note" [("lang", "en"), ("style", "color:red")],
        Event.endElementNS "en-note"] (fun _ => none) =
      some [SinkCall.startElement "html", SinkCall.startElement "head",
        SinkCall.startElement "meta",
        SinkCall.writeAttribute "http-equiv" (JsVal.str "Content-Type"),
        SinkCall.writeAttribute "content" (JsVal.str "text/html; charset=UTF-8"),
        SinkCall.endElement, SinkCall.endElement, SinkCall.startElement "body",
        SinkCall.writeAttribute "style" (JsVal.str
          "word-wrap: break-word; -webkit-nbsp-mode: space; -webkit-line-break: after-white-space;"),
        SinkCall.writeAttribute "lang" (JsVal.str "en"),
        SinkCall.writeAttribute "style" (JsVal.str "color:red"),
        SinkCall.endElement, SinkCall.endElement] :=
  ⟨fun resources st attrs => by simp [Render.onStartElementNS], by decide, by decide⟩

/-- C18, as the code runs it. The title is `resource.title || resource.url
|| ''`; a plain URL string has neither property, so its title is the empty
string, while `resource.url || resource` gives the string itself as URL.  With
the table `{h: "http://example.com/a.png"}` the `img` is written
`title=""` and `src="http://example.com/a.png"`, where the claim has the
title equal to the URL. -/
theorem render_plain_url_title_is_empty :
    (∀ s : String, Render.resourceTitle (Resource.plain s) = "" ∧
      Render.resourceUrl (Resource.plain s) = JsVal.str s) ∧
    HTMLOfENML [Event.startElementNS "en-note" [],
        Event.startElementNS "en-media" [("hash", "h"), ("type", "image/png")],
        Event.endElementNS "en-media", Event.endElementNS "en-note"]
      (fun hash => if hash = "h" then some (Resource.plain "http://example.com/a.png")
        else none) =
      some [SinkCall.startElement "html", SinkCall.startElement "head",
        SinkCall.startElement "meta",
        SinkCall.writeAttribute "http-equiv" (JsVal.str "Content-Type"),
        SinkCall.writeAttribute "content" (JsVal.str "text/html; charset=UTF-8"),
        SinkCall.endElement, SinkCall.endElement, SinkCall.startElement "body",
        SinkCall.writeAttribute "style" (JsVal.str Render.defaultStyle),
        SinkCall.startElement "img",
        SinkCall.writeAttribute "title" (JsVal.str ""),
        SinkCall.writeAttribute "src" (JsVal.str "http://example.com/a.png"),
        SinkCall.writeAttribute "hash" (JsVal.str "h"),
        SinkCall.writeAttribute "type" (JsVal.str "image/png"),
        SinkCall.endElement, SinkCall.text "\n",
        SinkCall.endElement, SinkCall.endElement] :=
  ⟨fun s => ⟨rfl, rfl⟩, by decide⟩

/-! ## TodosOfENML after CheckTodoInENML -/

/-- The relation is kept by every event handled in both runs. -/
theorem Todos.rel_step (b1 b2 : Bool) (base : List TodoRecord) (s1 s2 : TodosState)
    (e : Event) (h : Todos.Rel b1 b2 base s1 s2) :
    Todos.Rel b1 b2 base (Todos.step s1 e) (Todos.step s2 e) := by
  obtain ⟨hon, htx, hc⟩ := h
  cases e with
  | startElementNS elem attrs =>
      by_cases hi : Todos.isInline elem = true
      · simpa [Todos.step, Todos.onStartElementNS, hi] using ⟨hon, htx, hc⟩
      · have hi2 : Todos.isInline elem = false := by simpa using hi
        by_cases ht : elem = "en-todo"
        · subst ht
          simp only [Todos.step]
          rw [Todos.onStart_todo, Todos.onStart_todo]
          refine ⟨rfl, rfl, ?_⟩
          rcases hc with ⟨h1, _⟩ | ⟨h1, h2, _⟩ | ⟨t, r, h1, h2, _⟩
          · exact Or.inl ⟨h1, rfl⟩
          · exact Or.inl ⟨h1.trans h2.symm, rfl⟩
          · exact Or.inr (Or.inr ⟨t, r, h1, h2, fun _ => rfl⟩)
        · simp only [Todos.step]
          rw [Todos.onStart_other s1 elem attrs hi2 ht, Todos.onStart_other s2 elem attrs hi2 ht]
          refine ⟨rfl, htx, ?_⟩
          rcases hc with ⟨h1, h2⟩ | ⟨h1, h2, h3, h4, h5⟩ | ⟨t, r, h1, h2, h3⟩
          · left
            simp [h1, h2, hon, htx]
          · right; right
            have h3b : s2.onTodo = true := by rw [← hon]; exact h3
            refine ⟨s1.text, [], ?_, ?_, by simp⟩
            · simp [h3, h1, h4]
            · simp [h3b, h2, h5, htx]
          · right; right
            cases hon1 : s1.onTodo with
            | false =>
                have hon2 : s2.onTodo = false := by rw [← hon]; exact hon1
                exact ⟨t, r, by simp [hon1, h1], by simp [hon2, h2], by simp⟩
            | true =>
                have hon2 : s2.onTodo = true := by rw [← hon]; exact hon1
                have hch := h3 hon1
                refine ⟨t, r ++ [{ text := s1.text, checked := s1.checked }], ?_, ?_, by simp⟩
                · simp [hon1, h1]
                · simp [hon2, h2, htx, hch]
  | endElementNS elem => exact ⟨hon, htx, hc⟩
  | characters chars =>
      cases hon1 : s1.onTodo with
      | false =>
          have hon2 : s2.onTodo = false := by rw [← hon]; exact hon1
          have e1 : Todos.step s1 (Event.characters chars) = s1 := by
            simp [Todos.step, Todos.onCharacters, hon1]
          have e2 : Todos.step s2 (Event.characters chars) = s2 := by
            simp [Todos.step, Todos.onCharacters, hon2]
          rw [e1, e2]
          exact ⟨hon, htx, hc⟩
      | true =>
          have hon2 : s2.onTodo = true := by rw [← hon]; exact hon1
          have e1 : Todos.step s1 (Event.characters chars) =
              { s1 with text := some (s1.text.getD "null" ++ chars) } := by
            simp [Todos.step, Todos.onCharacters, hon1]
          have e2 : Todos.step s2 (Event.characters chars) =
              { s2 with text := some (s2.text.getD "null" ++ chars) } := by
            simp [Todos.step, Todos.onCharacters, hon2]
          rw [e1, e2]
          refine ⟨hon, by simp [htx], ?_⟩
          rcases hc with ⟨h1, h2⟩ | ⟨h1, h2, h3, h4, h5⟩ | ⟨t, r, h1, h2, h3⟩
          · exact Or.inl ⟨h1, h2⟩
          · exact Or.inr (Or.inl ⟨h1, h2, hon1, h4, h5⟩)
          · exact Or.inr (Or.inr ⟨t, r, h1, h2, fun _ => h3 hon1⟩)

theorem Todos.rel_run (b1 b2 : Bool) (base : List TodoRecord) (events : List Event)
    (s1 s2 : TodosState) (h : Todos.Rel b1 b2 base s1 s2) :
    Todos.Rel b1 b2 base (Todos.run s1 events) (Todos.run s2 events) := by
  induction events generalizing s1 s2 with
  | nil => simpa [Todos.scan_nil] using h
  | cons e es ih =>
      rw [Todos.scan_cons, Todos.scan_cons]
      exact ih _ _ (Todos.rel_step b1 b2 base s1 s2 e h)

/-- The attributes the toggle writes on the addressed element carry
`checked="true"` exactly when `check`. -/
theorem Todos.hasCheckedTrue_rewritten (attrs : List Attr) (check : Bool) :
    Todos.hasCheckedTrue
        (attrs.filter (fun attr => decide (attr.1 ≠ "checked")) ++
          (if check then [(("checked", "true") : Attr)] else [])) = check := by
  have hf : Todos.hasCheckedTrue (attrs.filter (fun attr => decide (attr.1 ≠ "checked"))) =
      false := by
    simp only [Todos.hasCheckedTrue, List.any_eq_false, List.mem_filter]
    rintro attr ⟨_, hne⟩
    simp only [decide_eq_true_eq] at hne
    simp [hne]
  cases check
  · simpa using hf
  · simp only [Todos.hasCheckedTrue, List.any_append, if_true] at hf ⊢
    simp

/-- Two streams that differ in the attributes of one `en-todo` start event
give lists that are equal, or equal but for the flag of the record pushed
right after the records of the events before it. -/
theorem Todos.extract_one_todo_changed (pre post : List Event) (attrs attrs2 : List Attr) :
    TodosOfENML (pre ++ Event.startElementNS "en-todo" attrs2 :: post) =
        TodosOfENML (pre ++ Event.startElementNS "en-todo" attrs :: post) ∨
      ∃ t r,
        TodosOfENML (pre ++ Event.startElementNS "en-todo" attrs :: post) =
          TodosOfENML pre ++ { text := t, checked := Todos.hasCheckedTrue attrs } :: r ∧
        TodosOfENML (pre ++ Event.startElementNS "en-todo" attrs2 :: post) =
          TodosOfENML pre ++ { text := t, checked := Todos.hasCheckedTrue attrs2 } :: r := by
  unfold TodosOfENML
  simp only [Todos.scan_append, Todos.scan_cons, Todos.step]
  rw [Todos.onStart_todo, Todos.onStart_todo]
  have h0 : Todos.Rel (Todos.hasCheckedTrue attrs) (Todos.hasCheckedTrue attrs2)
      (Todos.run Todos.init pre).todos
      { todos := (Todos.run Todos.init pre).todos, onTodo := true, text := some "",
        checked := Todos.hasCheckedTrue attrs }
      { todos := (Todos.run Todos.init pre).todos, onTodo := true, text := some "",
        checked := Todos.hasCheckedTrue attrs2 } :=
    ⟨rfl, rfl, Or.inr (Or.inl ⟨rfl, rfl, rfl, rfl, rfl⟩)⟩
  obtain ⟨_, _, hc⟩ := Todos.rel_run _ _ _ post _ _ h0
  rcases hc with ⟨h1, _⟩ | ⟨h1, h2, _⟩ | ⟨t, r, h1, h2, _⟩
  · exact Or.inl h1.symm
  · exact Or.inl (h2.trans h1.symm)
  · exact Or.inr ⟨t, r, h1, h2⟩

/-- The document a toggle writes, for a well-nested input: the input itself,
or the input with the attributes of the addressed `en-todo` rewritten. -/
theorem toggle_doc_shape (events : List Event) (index : Int) (check : Bool)
    (h : wellNested events = true) :
    readBack (CheckTodoInENML events index check) = some events ∨
      ∃ pre attrs post, events = pre ++ Event.startElementNS "en-todo" attrs :: post ∧
        index = (countTodos pre : Int) ∧
        readBack (CheckTodoInENML events index check) =
          some (pre ++ Event.startElementNS "en-todo"
            (attrs.filter (fun attr => decide (attr.1 ≠ "checked")) ++
              (if check then [("checked", "true")] else [])) :: post) := by
  rcases CheckTodoInENML_cases events index check with hp | ⟨pre, attrs, post, hd, hi, ho⟩
  · exact Or.inl (by rw [hp]; exact readBack_passThrough events h)
  · rw [passThrough_target] at ho
    have hw : wellNested (pre ++ Event.startElementNS "en-todo"
        (attrs.filter (fun attr => decide (attr.1 ≠ "checked")) ++
          (if check then [("checked", "true")] else [])) :: post) = true := by
      rw [hd] at h
      simp only [wellNested] at h ⊢
      rw [openElems_attrs pre post [] "en-todo" _ attrs]
      exact h
    exact Or.inr ⟨pre, attrs, post, hd, hi, by rw [ho]; exact readBack_passThrough _ hw⟩

/-- C20. Extract is stable under Toggle: for a well-nested stream the output
of a toggle reads back as a document whose extracted list has the same length
as that of the input and the same text at every position; the two lists are
equal, or they differ in the one record that was buffered from the `index`-th
`en-todo` start event, pushed right after the records of the events before
it, which carries that element's own `checked` flag in the input and `check`
after the toggle. -/
theorem extract_stable_under_toggle (events : List Event) (index : Int) (check : Bool)
    (h : wellNested events = true) :
    ∃ doc, readBack (CheckTodoInENML events index check) = some doc ∧
      (TodosOfENML doc).length = (TodosOfENML events).length ∧
      (TodosOfENML doc).map TodoRecord.text = (TodosOfENML events).map TodoRecord.text ∧
      (TodosOfENML doc = TodosOfENML events ∨
        ∃ pre attrs post t r,
          events = pre ++ Event.startElementNS "en-todo" attrs :: post ∧
          index = (countTodos pre : Int) ∧
          TodosOfENML events =
            TodosOfENML pre ++ { text := t, checked := Todos.hasCheckedTrue attrs } :: r ∧
          TodosOfENML doc = TodosOfENML pre ++ { text := t, checked := check } :: r) := by
  rcases toggle_doc_shape events index check h with hr | ⟨pre, attrs, post, hd, hi, hr⟩
  · exact ⟨events, hr, rfl, rfl, Or.inl rfl⟩
  · refine ⟨_, hr, ?_⟩
    rcases Todos.extract_one_todo_changed pre post attrs
        (attrs.filter (fun attr => decide (attr.1 ≠ "checked")) ++
          (if check then [("checked", "true")] else [])) with he | ⟨t, r, h1, h2⟩
    · rw [hd, he]
      exact ⟨rfl, rfl, Or.inl rfl⟩
    · rw [Todos.hasCheckedTrue_rewritten] at h2
      rw [hd, h1, h2]
      refine ⟨by simp, by simp, Or.inr ⟨pre, attrs, post, t, r, rfl, hi, ?_, rfl⟩⟩
      rw [← h1]

/-- The theorem `extract_stable_under_toggle` at a note with two checklist
lines, the first being checked: the extracted list keeps its length and
texts and changes the flag of its first record. -/
theorem extract_stable_under_toggle_witness :
    wellNested [Event.startElementNS "en-note" [],
        Event.startElementNS "div" [], Event.startElementNS "en-todo" [],
        Event.endElementNS "en-todo", Event.characters "A", Event.endElementNS "div",
        Event.startElementNS "div" [], Event.startElementNS "en-todo" [("checked", "true")],
        Event.endElementNS "en-todo", Event.characters "B", Event.endElementNS "div",
        Event.startElementNS "div" [], Event.endElementNS "div",
        Event.endElementNS "en-note"] = true ∧
    TodosOfENML [Event.startElementNS "en-note" [],
        Event.startElementNS "div" [], Event.startElementNS "en-todo" [],
        Event.endElementNS "en-todo", Event.characters "A", Event.endElementNS "div",
        Event.startElementNS "div" [], Event.startElementNS "en-todo" [("checked", "true")],
        Event.endElementNS "en-todo", Event.characters "B", Event.endElementNS "div",
        Event.startElementNS "div" [], Event.endElementNS "div",
        Event.endElementNS "en-note"] =
      [{ text := some "A", checked := false }, { text := some "B", checked := true }] ∧
    ∃ doc, readBack (CheckTodoInENML [Event.startElementNS "en-note" [],
        Event.startElementNS "div" [], Event.startElementNS "en-todo" [],
        Event.endElementNS "en-todo", Event.characters "A", Event.endElementNS "div",
        Event.startElementNS "div" [], Event.startElementNS "en-todo" [("checked", "true")],
        Event.endElementNS "en-todo", Event.characters "B", Event.endElementNS "div",
        Event.startElementNS "div" [], Event.endElementNS "div",
        Event.endElementNS "en-note"] 0 true) = some doc ∧
      (TodosOfENML doc).length = 2 ∧
      (TodosOfENML doc).map TodoRecord.text = [some "A", some "B"] := by
  refine ⟨by decide, by decide, ?_⟩
  obtain ⟨doc, h1, h2, h3, _⟩ := extract_stable_under_toggle
    [Event.startElementNS "en-note" [],
      Event.startElementNS "div" [], Event.startElementNS "en-todo" [],
      Event.endElementNS "en-todo", Event.characters "A", Event.endElementNS "div",
      Event.startElementNS "div" [], Event.startElementNS "en-todo" [("checked", "true")],
      Event.endElementNS "en-todo", Event.characters "B", Event.endElementNS "div",
      Event.startElementNS "div" [], Event.endElementNS "div",
      Event.endElementNS "en-note"] 0 true (by decide)
  refine ⟨doc, h1, ?_, ?_⟩
  · rw [h2]; decide
  · rw [h3]; decide

end ENML
